import Mathlib

/-!
Verification of the terrapane bases library: binary-to-text codecs for
radix-16, radix-32, radix-45, radix-58 and radix-64.

Shallow embedding conventions used throughout this file:
* an octet (byte) is a Nat, meaningful when < 256;
* a text string is a List Nat of character codes (ASCII values);
* machine-integer bit operations on the accumulator registers are rendered
  arithmetically: for x < 2 ^ k, (g << k) | x is g * 2 ^ k + x, g >> k is
  g / 2 ^ k, and g & (2 ^ k - 1) is g % 2 ^ k.  The C accumulators are
  unsigned and at least 32 bits wide; every observation the code makes of
  them is through such low-bit masks, so exact Nat arithmetic is
  observationally equivalent to the wrapping machine arithmetic.
* fallible operations that the C signals with an early `return {}` are
  rendered with Option, the caller mapping none to the empty output.

Each codec is embedded from its source file: base16.cpp, base32.cpp,
base45.cpp, base58.cpp, base64.cpp.
-/

namespace Base16

/-- Forward alphabet from base16.cpp, Base16Table. -/
def Base16Table : List Nat :=
  (['0', '1', '2', '3', '4', '5', '6', '7', '8', '9', 'A', 'B', 'C', 'D',
    'E', 'F']).map Char.toNat

/-- Sentinel for characters outside the alphabet, base16.cpp. -/
def InvalidBase16Character : Nat := 255

/-- Embedding of the B16ToInt conditional chain from base16.cpp. -/
def B16ToInt (x : Nat) : Nat :=
  if x = '0'.toNat then 0 else if x = '1'.toNat then 1 else
  if x = '2'.toNat then 2 else if x = '3'.toNat then 3 else
  if x = '4'.toNat then 4 else if x = '5'.toNat then 5 else
  if x = '6'.toNat then 6 else if x = '7'.toNat then 7 else
  if x = '8'.toNat then 8 else if x = '9'.toNat then 9 else
  if x = 'A'.toNat then 10 else if x = 'B'.toNat then 11 else
  if x = 'C'.toNat then 12 else if x = 'D'.toNat then 13 else
  if x = 'E'.toNat then 14 else if x = 'F'.toNat then 15 else
  if x = 'a'.toNat then 10 else if x = 'b'.toNat then 11 else
  if x = 'c'.toNat then 12 else if x = 'd'.toNat then 13 else
  if x = 'e'.toNat then 14 else if x = 'f'.toNat then 15 else
  InvalidBase16Character

/-- Reverse lookup table of base16.cpp: entry i of the 256-entry array is
B16ToInt(i); indexing casts the character to uint8_t, hence the mod 256. -/
def Base16ReverseTable (c : Nat) : Nat := B16ToInt (c % 256)

/-- Octet loop of Encode in base16.cpp: two characters per input octet,
high nibble then low nibble. -/
def encodeLoop : List Nat → List Nat → List Nat
  | [], out => out
  | octet :: rest, out =>
      encodeLoop rest
        (out ++ [Base16Table.getD (octet / 16 % 16) 0,
                 Base16Table.getD (octet % 16) 0])

/-- Encode from base16.cpp (span overload). -/
def Encode (input : List Nat) : List Nat :=
  if input.length = 0 then [] else encodeLoop input []

/-- Character loop of Decode in base16.cpp.  State: group register,
group_size in bits, accumulated output.  Returns output, group and
group_size at loop exit. -/
def decodeLoop : List Nat → Nat → Nat → List Nat → List Nat × Nat × Nat
  | [], group, group_size, out => (out, group, group_size)
  | c :: rest, group, group_size, out =>
      let octet := Base16ReverseTable c
      if octet = InvalidBase16Character then decodeLoop rest group group_size out
      else
        let group' := group * 16 + octet % 16
        let group_size' := group_size + 4
        if group_size' = 8 then decodeLoop rest group' 0 (out ++ [group' % 256])
        else decodeLoop rest group' group_size' out

/-- Decode from base16.cpp: empty input yields empty output; a dangling
nibble (group_size > 0 at the end) yields the empty failure result. -/
def Decode (input : List Nat) : List Nat :=
  if input.length = 0 then []
  else
    let r := decodeLoop input 0 0 []
    if 0 < r.2.2 then [] else r.1

/-- Values of the input characters that survive the reverse-table filter,
in order.  Used to state the decode claims. -/
def validNibbles (s : List Nat) : List Nat :=
  (s.filter (fun c => Base16ReverseTable c != InvalidBase16Character)).map
    (fun c => Base16ReverseTable c)

/-- Modelled from the spec: every 2 valid nibbles yield one octet, high
nibble first.  Reference output for the even-count case of Decode. -/
def pairNibbles : List Nat → List Nat
  | a :: b :: rest => (a * 16 + b) :: pairNibbles rest
  | _ => []

/-- Pairing with a pending high nibble p already accumulated; proof-layer
companion of pairNibbles. -/
def pairFrom (p : Nat) : List Nat → List Nat
  | b :: rest => (p * 16 + b) :: pairNibbles rest
  | [] => []

end Base16

namespace Base32

/-- Forward alphabet from base32.cpp, Base32Table. -/
def Base32Table : List Nat :=
  (['A', 'B', 'C', 'D', 'E', 'F', 'G', 'H', 'I', 'J', 'K', 'L', 'M', 'N',
    'O', 'P', 'Q', 'R', 'S', 'T', 'U', 'V', 'W', 'X', 'Y', 'Z', '2', '3',
    '4', '5', '6', '7']).map Char.toNat

/-- Padding character of base32.cpp, the code of the equals sign. -/
def Base32PaddingCharacter : Nat := 61

/-- Sentinel for characters outside the alphabet, base32.cpp. -/
def InvalidBase32Character : Nat := 255

/-- Embedding of the B32ToInt conditional chain from base32.cpp
(case-insensitive: lowercase letters map to the same values). -/
def B32ToInt (x : Nat) : Nat :=
  if x = 'A'.toNat then 0 else if x = 'B'.toNat then 1 else
  if x = 'C'.toNat then 2 else if x = 'D'.toNat then 3 else
  if x = 'E'.toNat then 4 else if x = 'F'.toNat then 5 else
  if x = 'G'.toNat then 6 else if x = 'H'.toNat then 7 else
  if x = 'I'.toNat then 8 else if x = 'J'.toNat then 9 else
  if x = 'K'.toNat then 10 else if x = 'L'.toNat then 11 else
  if x = 'M'.toNat then 12 else if x = 'N'.toNat then 13 else
  if x = 'O'.toNat then 14 else if x = 'P'.toNat then 15 else
  if x = 'Q'.toNat then 16 else if x = 'R'.toNat then 17 else
  if x = 'S'.toNat then 18 else if x = 'T'.toNat then 19 else
  if x = 'U'.toNat then 20 else if x = 'V'.toNat then 21 else
  if x = 'W'.toNat then 22 else if x = 'X'.toNat then 23 else
  if x = 'Y'.toNat then 24 else if x = 'Z'.toNat then 25 else
  if x = 'a'.toNat then 0 else if x = 'b'.toNat then 1 else
  if x = 'c'.toNat then 2 else if x = 'd'.toNat then 3 else
  if x = 'e'.toNat then 4 else if x = 'f'.toNat then 5 else
  if x = 'g'.toNat then 6 else if x = 'h'.toNat then 7 else
  if x = 'i'.toNat then 8 else if x = 'j'.toNat then 9 else
  if x = 'k'.toNat then 10 else if x = 'l'.toNat then 11 else
  if x = 'm'.toNat then 12 else if x = 'n'.toNat then 13 else
  if x = 'o'.toNat then 14 else if x = 'p'.toNat then 15 else
  if x = 'q'.toNat then 16 else if x = 'r'.toNat then 17 else
  if x = 's'.toNat then 18 else if x = 't'.toNat then 19 else
  if x = 'u'.toNat then 20 else if x = 'v'.toNat then 21 else
  if x = 'w'.toNat then 22 else if x = 'x'.toNat then 23 else
  if x = 'y'.toNat then 24 else if x = 'z'.toNat then 25 else
  if x = '2'.toNat then 26 else if x = '3'.toNat then 27 else
  if x = '4'.toNat then 28 else if x = '5'.toNat then 29 else
  if x = '6'.toNat then 30 else if x = '7'.toNat then 31 else
  InvalidBase32Character

/-- Reverse lookup table of base32.cpp: entry i is B32ToInt(i), indexed by
the uint8_t cast of the character. -/
def Base32ReverseTable (c : Nat) : Nat := B32ToInt (c % 256)

/-- Embedding of the do-while in Encode of base32.cpp: emit the top five
bits of the group, repeat while at least five data bits remain.  Returns
output, remaining group_size and quantum. -/
def emit5 (group group_size quantum : Nat) (out : List Nat) :
    List Nat × Nat × Nat :=
  let out' := out ++ [Base32Table.getD (group / 2 ^ (group_size - 5) % 32) 0]
  if h : 5 ≤ group_size - 5 then emit5 group (group_size - 5) (quantum + 1) out'
  else (out', group_size - 5, quantum + 1)
termination_by group_size
decreasing_by omega

/-- Octet loop of Encode in base32.cpp, including the final partial-group
flush and the padding with equals signs up to 8 characters. -/
def encodeLoop : List Nat → Nat → Nat → Nat → List Nat → List Nat
  | [], group, group_size, quantum, out =>
      if 0 < group_size then
        let group' := group * 2 ^ (5 - group_size % 5)
        let out' := out ++ [Base32Table.getD (group' % 32) 0]
        let quantum' := quantum + 1
        if quantum' < 8 then
          out' ++ List.replicate (8 - quantum') Base32PaddingCharacter
        else out'
      else out
  | octet :: rest, group, group_size, quantum, out =>
      let group' := group * 256 + octet
      let r := emit5 group' (group_size + 8) quantum out
      let quantum' := if r.2.2 = 8 then 0 else r.2.2
      encodeLoop rest group' r.2.1 quantum' r.1

/-- Encode from base32.cpp (span overload). -/
def Encode (input : List Nat) : List Nat :=
  if input.length = 0 then [] else encodeLoop input 0 0 0 []

/-- Character loop of Decode in base32.cpp: stop at the first padding
character, skip invalid characters, emit an octet whenever eight bits are
accumulated.  Returns output, group and group_size at loop exit. -/
def decodeLoop : List Nat → Nat → Nat → List Nat → List Nat × Nat × Nat
  | [], group, group_size, out => (out, group, group_size)
  | c :: rest, group, group_size, out =>
      if c = Base32PaddingCharacter then (out, group, group_size)
      else
        let octet := Base32ReverseTable c
        if octet = InvalidBase32Character then
          decodeLoop rest group group_size out
        else
          let group' := group * 32 + octet % 32
          let group_size' := group_size + 5
          if 8 ≤ group_size' then
            decodeLoop rest group' (group_size' - 8)
              (out ++ [group' / 2 ^ (group_size' - 8) % 256])
          else decodeLoop rest group' group_size' out

/-- Partial-group check after the loop of Decode in base32.cpp: residual
bits beyond whole octets must all be zero, otherwise the empty failure
result is returned. -/
def decodeFinish (r : List Nat × Nat × Nat) : List Nat :=
  if 0 < r.2.2 then
    if r.2.1 % 2 ^ r.2.2 ≠ 0 then [] else r.1
  else r.1

/-- Decode from base32.cpp. -/
def Decode (input : List Nat) : List Nat :=
  if input.length = 0 then [] else decodeFinish (decodeLoop input 0 0 [])

/-- Number of padding characters Encode appends for a final partial block,
as a function of input length mod 5; zero for complete blocks. -/
def padOf (r : Nat) : Nat := if r = 0 then 0 else 7 - 8 * r / 5

end Base32

namespace Base45

/-- Forward alphabet from base45.cpp, Base45Table. -/
def Base45Table : List Nat :=
  (['0', '1', '2', '3', '4', '5', '6', '7', '8', '9', 'A', 'B', 'C', 'D',
    'E', 'F', 'G', 'H', 'I', 'J', 'K', 'L', 'M', 'N', 'O', 'P', 'Q', 'R',
    'S', 'T', 'U', 'V', 'W', 'X', 'Y', 'Z', ' ', '$', '%', '*', '+', '-',
    '.', '/', ':']).map Char.toNat

/-- Sentinel for characters outside the alphabet, base45.cpp. -/
def InvalidBase45Character : Nat := 255

/-- Embedding of the B45ToInt conditional chain from base45.cpp
(case-sensitive). -/
def B45ToInt (x : Nat) : Nat :=
  if x = '0'.toNat then 0 else if x = '1'.toNat then 1 else
  if x = '2'.toNat then 2 else if x = '3'.toNat then 3 else
  if x = '4'.toNat then 4 else if x = '5'.toNat then 5 else
  if x = '6'.toNat then 6 else if x = '7'.toNat then 7 else
  if x = '8'.toNat then 8 else if x = '9'.toNat then 9 else
  if x = 'A'.toNat then 10 else if x = 'B'.toNat then 11 else
  if x = 'C'.toNat then 12 else if x = 'D'.toNat then 13 else
  if x = 'E'.toNat then 14 else if x = 'F'.toNat then 15 else
  if x = 'G'.toNat then 16 else if x = 'H'.toNat then 17 else
  if x = 'I'.toNat then 18 else if x = 'J'.toNat then 19 else
  if x = 'K'.toNat then 20 else if x = 'L'.toNat then 21 else
  if x = 'M'.toNat then 22 else if x = 'N'.toNat then 23 else
  if x = 'O'.toNat then 24 else if x = 'P'.toNat then 25 else
  if x = 'Q'.toNat then 26 else if x = 'R'.toNat then 27 else
  if x = 'S'.toNat then 28 else if x = 'T'.toNat then 29 else
  if x = 'U'.toNat then 30 else if x = 'V'.toNat then 31 else
  if x = 'W'.toNat then 32 else if x = 'X'.toNat then 33 else
  if x = 'Y'.toNat then 34 else if x = 'Z'.toNat then 35 else
  if x = ' '.toNat then 36 else if x = '$'.toNat then 37 else
  if x = '%'.toNat then 38 else if x = '*'.toNat then 39 else
  if x = '+'.toNat then 40 else if x = '-'.toNat then 41 else
  if x = '.'.toNat then 42 else if x = '/'.toNat then 43 else
  if x = ':'.toNat then 44 else
  InvalidBase45Character

/-- Reverse lookup table of base45.cpp: entry i is B45ToInt(i), indexed by
the uint8_t cast of the character. -/
def Base45ReverseTable (c : Nat) : Nat := B45ToInt (c % 256)

/-- Octet loop of Encode in base45.cpp: pairs of octets form a 16-bit
big-endian group emitted as three characters, least significant symbol
first; the trailing single octet emits two characters. -/
def encodeLoop : List Nat → Nat → Nat → List Nat → List Nat
  | [], group, group_size, out =>
      if 0 < group_size then
        out ++ [Base45Table.getD (group % 45) 0,
                Base45Table.getD (group / 45 % 45) 0]
      else out
  | octet :: rest, group, group_size, out =>
      let group' := group * 256 + octet
      let group_size' := group_size + 1
      if group_size' = 2 then
        encodeLoop rest 0 0
          (out ++ [Base45Table.getD (group' % 45) 0,
                   Base45Table.getD (group' / 45 % 45) 0,
                   Base45Table.getD (group' / 2025 % 45) 0])
      else encodeLoop rest group' group_size' out

/-- Encode from base45.cpp (span overload). -/
def Encode (input : List Nat) : List Nat :=
  if input.length = 0 then [] else encodeLoop input 0 0 []

/-- Character loop plus trailing-group handling of Decode in base45.cpp.
Groups of three symbol values c0, c1, c2 rebuild octet_pair =
c0 + c1 * 45 + c2 * 2025 and push its two big-endian octets; a trailing
group of two pushes one octet; a trailing group of one fails (none). -/
def decodeLoop : List Nat → Nat → Nat → List Nat → Option (List Nat)
  | [], group, group_size, out =>
      if 0 < group_size then
        if group_size ≠ 2 then none
        else some (out ++ [(group / 256 % 256 + group % 256 * 45) % 256])
      else some out
  | c :: rest, group, group_size, out =>
      let octet := Base45ReverseTable c
      if octet = InvalidBase45Character then decodeLoop rest group group_size out
      else
        let group' := group * 256 + octet
        let group_size' := group_size + 1
        if group_size' = 3 then
          let octet_pair := group' / 65536 % 256 + group' / 256 % 256 * 45 +
            group' % 256 * 2025
          decodeLoop rest 0 0
            (out ++ [octet_pair / 256 % 256, octet_pair % 256])
        else decodeLoop rest group' group_size' out

/-- Decode from base45.cpp. -/
def Decode (input : List Nat) : List Nat :=
  if input.length = 0 then []
  else
    match decodeLoop input 0 0 [] with
    | none => []
    | some out => out

/-- Values of the input characters that survive the reverse-table filter,
in order.  Used to state the decode claims. -/
def vals (s : List Nat) : List Nat :=
  (s.filter (fun c => Base45ReverseTable c != InvalidBase45Character)).map
    (fun c => Base45ReverseTable c)

/-- Modelled from the spec: decoding of an exact sequence of full
three-symbol groups, each rebuilding v = c0 + c1 * 45 + c2 * 2025 and
yielding the octets (v mod 65536) >> 8 and v & 0xff. -/
def decodeFull : List Nat → List Nat
  | c0 :: c1 :: c2 :: rest =>
      (c0 + c1 * 45 + c2 * 2025) % 65536 / 256 ::
        (c0 + c1 * 45 + c2 * 2025) % 256 :: decodeFull rest
  | _ => []

/-- Modelled from the spec: grouping structure of Decode.  Full groups of
three symbol values yield two octets each; a trailing group of two yields
one octet; a trailing group of one fails; an empty trailing group is
complete. -/
def decodeGroups : List Nat → Option (List Nat)
  | c0 :: c1 :: c2 :: rest =>
      (decodeGroups rest).map (fun t =>
        (c0 + c1 * 45 + c2 * 2025) % 65536 / 256 ::
          (c0 + c1 * 45 + c2 * 2025) % 256 :: t)
  | [c0, c1] => some [(c0 + c1 * 45) % 256]
  | [_] => none
  | [] => some []

/-- Modelled from the spec: for a full pair of octets forming the 16-bit
value v, emit table[v mod 45], table[(v / 45) mod 45],
table[(v / 2025) mod 45]; a trailing single octet emits the first two. -/
def encodePairs : List Nat → List Nat
  | b0 :: b1 :: rest =>
      Base45Table.getD ((b0 * 256 + b1) % 45) 0 ::
        Base45Table.getD ((b0 * 256 + b1) / 45 % 45) 0 ::
        Base45Table.getD ((b0 * 256 + b1) / 2025 % 45) 0 :: encodePairs rest
  | [b] => [Base45Table.getD (b % 45) 0, Base45Table.getD (b / 45 % 45) 0]
  | [] => []

end Base45

namespace Base58

/-- Forward alphabet from base58.cpp, Base58Table (Bitcoin alphabet,
excluding 0, O, I and l). -/
def Base58Table : List Nat :=
  (['1', '2', '3', '4', '5', '6', '7', '8', '9', 'A', 'B', 'C', 'D', 'E',
    'F', 'G', 'H', 'J', 'K', 'L', 'M', 'N', 'P', 'Q', 'R', 'S', 'T', 'U',
    'V', 'W', 'X', 'Y', 'Z', 'a', 'b', 'c', 'd', 'e', 'f', 'g', 'h', 'i',
    'j', 'k', 'm', 'n', 'o', 'p', 'q', 'r', 's', 't', 'u', 'v', 'w', 'x',
    'y', 'z']).map Char.toNat

/-- Sentinel for characters outside the alphabet, base58.cpp. -/
def InvalidBase58Character : Nat := 255

/-- Embedding of the B58ToInt conditional chain from base58.cpp. -/
def B58ToInt (x : Nat) : Nat :=
  if x = '1'.toNat then 0 else if x = '2'.toNat then 1 else
  if x = '3'.toNat then 2 else if x = '4'.toNat then 3 else
  if x = '5'.toNat then 4 else if x = '6'.toNat then 5 else
  if x = '7'.toNat then 6 else if x = '8'.toNat then 7 else
  if x = '9'.toNat then 8 else if x = 'A'.toNat then 9 else
  if x = 'B'.toNat then 10 else if x = 'C'.toNat then 11 else
  if x = 'D'.toNat then 12 else if x = 'E'.toNat then 13 else
  if x = 'F'.toNat then 14 else if x = 'G'.toNat then 15 else
  if x = 'H'.toNat then 16 else if x = 'J'.toNat then 17 else
  if x = 'K'.toNat then 18 else if x = 'L'.toNat then 19 else
  if x = 'M'.toNat then 20 else if x = 'N'.toNat then 21 else
  if x = 'P'.toNat then 22 else if x = 'Q'.toNat then 23 else
  if x = 'R'.toNat then 24 else if x = 'S'.toNat then 25 else
  if x = 'T'.toNat then 26 else if x = 'U'.toNat then 27 else
  if x = 'V'.toNat then 28 else if x = 'W'.toNat then 29 else
  if x = 'X'.toNat then 30 else if x = 'Y'.toNat then 31 else
  if x = 'Z'.toNat then 32 else if x = 'a'.toNat then 33 else
  if x = 'b'.toNat then 34 else if x = 'c'.toNat then 35 else
  if x = 'd'.toNat then 36 else if x = 'e'.toNat then 37 else
  if x = 'f'.toNat then 38 else if x = 'g'.toNat then 39 else
  if x = 'h'.toNat then 40 else if x = 'i'.toNat then 41 else
  if x = 'j'.toNat then 42 else if x = 'k'.toNat then 43 else
  if x = 'm'.toNat then 44 else if x = 'n'.toNat then 45 else
  if x = 'o'.toNat then 46 else if x = 'p'.toNat then 47 else
  if x = 'q'.toNat then 48 else if x = 'r'.toNat then 49 else
  if x = 's'.toNat then 50 else if x = 't'.toNat then 51 else
  if x = 'u'.toNat then 52 else if x = 'v'.toNat then 53 else
  if x = 'w'.toNat then 54 else if x = 'x'.toNat then 55 else
  if x = 'y'.toNat then 56 else if x = 'z'.toNat then 57 else
  InvalidBase58Character

/-- Reverse lookup table of base58.cpp: entry i is B58ToInt(i).  The
source array lists B58ToInt(58), B58ToInt(158) and B58ToInt(258) at
indices 45, 145 and 245; all three arguments fall through the whole
conditional chain exactly as 45, 145 and 245 would, so the table is
extensionally B58ToInt of the index. -/
def Base58ReverseTable (c : Nat) : Nat := B58ToInt (c % 256)

/-- Whitespace predicate of std::isspace in the C locale, used by Decode
in base58.cpp. -/
def IsSpace (c : Nat) : Bool :=
  c == 32 || c == 9 || c == 10 || c == 11 || c == 12 || c == 13

/-- Inner base-conversion loop of Encode in base58.cpp: propagate the
carry through the base-58 digit accumulator (multiply by 256 and add),
growing the logical length while carry remains, with index j capped at
max_output_length.  Returns the buffer, output_length and leftover carry. -/
def encLoop (out : List Nat) (output_length carry j zeros maxlen : Nat) :
    List Nat × Nat × Nat :=
  if _h : j < maxlen then
    if j = output_length then
      if carry = 0 then (out, output_length, carry)
      else
        let c := carry + out.getD (j - zeros) 0 * 256
        encLoop (out.set (j - zeros) (c % 58)) (output_length + 1) (c / 58)
          (j + 1) zeros maxlen
    else
      let c := carry + out.getD (j - zeros) 0 * 256
      encLoop (out.set (j - zeros) (c % 58)) output_length (c / 58)
        (j + 1) zeros maxlen
  else (out, output_length, carry)
termination_by maxlen - j
decreasing_by all_goals omega

/-- Outer octet loop of Encode in base58.cpp over the octets after the
leading zeros: inject each octet as a carry; if carry remains after the
inner loop, the whole call fails (none). -/
def encodeCore : List Nat → List Nat → Nat → Nat → Nat →
    Option (List Nat × Nat)
  | [], out, output_length, _, _ => some (out, output_length)
  | b :: rest, out, output_length, zeros, maxlen =>
      let r := encLoop out output_length b zeros zeros maxlen
      if 0 < r.2.2 then none
      else encodeCore rest r.1 r.2.1 zeros maxlen

/-- Character-substitution loop of Encode in base58.cpp.  The source loop
bound is i <= output_length, so it also touches index output_length, one
past the resized string; on a List the out-of-range set is a no-op, which
matches the C++ null-terminator position the write lands on. -/
def substLoop (out : List Nat) (i output_length : Nat) : List Nat :=
  if _h : i ≤ output_length then
    substLoop (out.set i (Base58Table.getD (out.getD i 0) 0)) (i + 1)
      output_length
  else out
termination_by output_length + 1 - i
decreasing_by omega

/-- Encode from base58.cpp (span overload): count leading zero octets,
convert the rest through the digit accumulator, truncate to
output_length, substitute alphabet characters and reverse. -/
def Encode (input : List Nat) : List Nat :=
  if input.length = 0 then []
  else
    let maxlen := input.length * 137 / 100 + 1
    let zeros := (input.takeWhile (fun b => b == 0)).length
    match encodeCore (input.drop zeros) (List.replicate maxlen 0) zeros
        zeros maxlen with
    | none => []
    | some r => (substLoop (r.1.take r.2) 0 r.2).reverse

/-- The value output_length holds when Encode reaches the substitution
loop, for a given input (zero if the conversion failed before that). -/
def encodeOutputLength (input : List Nat) : Nat :=
  let maxlen := input.length * 137 / 100 + 1
  let zeros := (input.takeWhile (fun b => b == 0)).length
  match encodeCore (input.drop zeros) (List.replicate maxlen 0) zeros
      zeros maxlen with
  | none => 0
  | some r => r.2

/-- Indices the substitution loop of Encode reads and writes: the loop
header is for (i = 0; i <= output_length; i++). -/
def substIndices (output_length : Nat) : List Nat :=
  List.range (output_length + 1)

/-- Leading-zeros scan of Decode in base58.cpp: count leading encoded
zeros (the character 1), skipping whitespace, and report where the
remaining digits start. -/
def scanZeros : List Nat → Nat → Nat → Nat × Nat
  | [], zeros, digits_start => (zeros, digits_start)
  | c :: rest, zeros, digits_start =>
      if c = '1'.toNat then scanZeros rest (zeros + 1) (digits_start + 1)
      else if IsSpace c then scanZeros rest zeros (digits_start + 1)
      else (zeros, digits_start)

/-- Inner base-conversion loop of Decode in base58.cpp: propagate the
carry through the base-256 digit accumulator (multiply by 58 and add). -/
def decLoop (out : List Nat) (output_length carry j maxlen : Nat) :
    List Nat × Nat × Nat :=
  if _h : j < maxlen then
    if j = output_length then
      if carry = 0 then (out, output_length, carry)
      else
        let c := carry + 58 * out.getD j 0
        decLoop (out.set j (c % 256)) (output_length + 1) (c / 256)
          (j + 1) maxlen
    else
      let c := carry + 58 * out.getD j 0
      decLoop (out.set j (c % 256)) output_length (c / 256) (j + 1) maxlen
  else (out, output_length, carry)
termination_by maxlen - j
decreasing_by all_goals omega

/-- Character loop of Decode in base58.cpp over the characters after the
counted zeros: skip whitespace, fail on invalid characters, inject each
symbol value as a carry; leftover carry after the inner loop fails. -/
def decodeCore : List Nat → List Nat → Nat → Nat → Option (List Nat × Nat)
  | [], out, output_length, _ => some (out, output_length)
  | c :: rest, out, output_length, maxlen =>
      if IsSpace c then decodeCore rest out output_length maxlen
      else
        let carry := Base58ReverseTable c
        if carry = InvalidBase58Character then none
        else
          let r := decLoop out output_length carry 0 maxlen
          if 0 < r.2.2 then none
          else decodeCore rest r.1 r.2.1 maxlen

/-- Decode from base58.cpp: scan leading encoded zeros, convert the
remaining characters, truncate to output_length, append one zero octet
per counted zero and reverse. -/
def Decode (input : List Nat) : List Nat :=
  if input.length = 0 then []
  else
    let maxlen := input.length
    let z := scanZeros input 0 0
    match decodeCore (input.drop z.2) (List.replicate maxlen 0) 0 maxlen with
    | none => []
    | some r => (r.1.take r.2 ++ List.replicate z.1 0).reverse

end Base58

namespace Base64

/-- Forward alphabet from base64.cpp, Base64Table. -/
def Base64Table : List Nat :=
  (['A', 'B', 'C', 'D', 'E', 'F', 'G', 'H', 'I', 'J', 'K', 'L', 'M', 'N',
    'O', 'P', 'Q', 'R', 'S', 'T', 'U', 'V', 'W', 'X', 'Y', 'Z', 'a', 'b',
    'c', 'd', 'e', 'f', 'g', 'h', 'i', 'j', 'k', 'l', 'm', 'n', 'o', 'p',
    'q', 'r', 's', 't', 'u', 'v', 'w', 'x', 'y', 'z', '0', '1', '2', '3',
    '4', '5', '6', '7', '8', '9', '+', '/']).map Char.toNat

/-- Padding character of base64.cpp, the code of the equals sign. -/
def Base64PaddingCharacter : Nat := 61

/-- Sentinel for characters outside the alphabet, base64.cpp. -/
def InvalidBase64Character : Nat := 255

/-- Embedding of the B64ToInt conditional chain from base64.cpp. -/
def B64ToInt (x : Nat) : Nat :=
  if x = 'A'.toNat then 0 else if x = 'B'.toNat then 1 else
  if x = 'C'.toNat then 2 else if x = 'D'.toNat then 3 else
  if x = 'E'.toNat then 4 else if x = 'F'.toNat then 5 else
  if x = 'G'.toNat then 6 else if x = 'H'.toNat then 7 else
  if x = 'I'.toNat then 8 else if x = 'J'.toNat then 9 else
  if x = 'K'.toNat then 10 else if x = 'L'.toNat then 11 else
  if x = 'M'.toNat then 12 else if x = 'N'.toNat then 13 else
  if x = 'O'.toNat then 14 else if x = 'P'.toNat then 15 else
  if x = 'Q'.toNat then 16 else if x = 'R'.toNat then 17 else
  if x = 'S'.toNat then 18 else if x = 'T'.toNat then 19 else
  if x = 'U'.toNat then 20 else if x = 'V'.toNat then 21 else
  if x = 'W'.toNat then 22 else if x = 'X'.toNat then 23 else
  if x = 'Y'.toNat then 24 else if x = 'Z'.toNat then 25 else
  if x = 'a'.toNat then 26 else if x = 'b'.toNat then 27 else
  if x = 'c'.toNat then 28 else if x = 'd'.toNat then 29 else
  if x = 'e'.toNat then 30 else if x = 'f'.toNat then 31 else
  if x = 'g'.toNat then 32 else if x = 'h'.toNat then 33 else
  if x = 'i'.toNat then 34 else if x = 'j'.toNat then 35 else
  if x = 'k'.toNat then 36 else if x = 'l'.toNat then 37 else
  if x = 'm'.toNat then 38 else if x = 'n'.toNat then 39 else
  if x = 'o'.toNat then 40 else if x = 'p'.toNat then 41 else
  if x = 'q'.toNat then 42 else if x = 'r'.toNat then 43 else
  if x = 's'.toNat then 44 else if x = 't'.toNat then 45 else
  if x = 'u'.toNat then 46 else if x = 'v'.toNat then 47 else
  if x = 'w'.toNat then 48 else if x = 'x'.toNat then 49 else
  if x = 'y'.toNat then 50 else if x = 'z'.toNat then 51 else
  if x = '0'.toNat then 52 else if x = '1'.toNat then 53 else
  if x = '2'.toNat then 54 else if x = '3'.toNat then 55 else
  if x = '4'.toNat then 56 else if x = '5'.toNat then 57 else
  if x = '6'.toNat then 58 else if x = '7'.toNat then 59 else
  if x = '8'.toNat then 60 else if x = '9'.toNat then 61 else
  if x = '+'.toNat then 62 else if x = '/'.toNat then 63 else
  InvalidBase64Character

/-- Reverse lookup table of base64.cpp: entry i is B64ToInt(i), indexed by
the uint8_t cast of the character. -/
def Base64ReverseTable (c : Nat) : Nat := B64ToInt (c % 256)

/-- Octet loop of Encode in base64.cpp: full 24-bit groups emit four
characters; a final group of one octet emits two characters and two
padding characters, of two octets three characters and one padding
character. -/
def encodeLoop : List Nat → Nat → Nat → List Nat → List Nat
  | [], group, group_size, out =>
      if 0 < group_size then
        let group' := group * 2 ^ (24 - group_size)
        let out' := out ++ [Base64Table.getD (group' / 262144 % 64) 0,
                            Base64Table.getD (group' / 4096 % 64) 0]
        if group_size = 8 then
          out' ++ [Base64PaddingCharacter, Base64PaddingCharacter]
        else
          out' ++ [Base64Table.getD (group' / 64 % 64) 0,
                   Base64PaddingCharacter]
      else out
  | octet :: rest, group, group_size, out =>
      let group' := group * 256 + octet
      let group_size' := group_size + 8
      if group_size' = 24 then
        encodeLoop rest 0 0
          (out ++ [Base64Table.getD (group' / 262144 % 64) 0,
                   Base64Table.getD (group' / 4096 % 64) 0,
                   Base64Table.getD (group' / 64 % 64) 0,
                   Base64Table.getD (group' % 64) 0])
      else encodeLoop rest group' group_size' out

/-- Encode from base64.cpp (span overload). -/
def Encode (input : List Nat) : List Nat :=
  if input.length = 0 then [] else encodeLoop input 0 0 []

/-- Character loop of Decode in base64.cpp: stop at the first padding
character, skip invalid characters, emit three octets per full 24-bit
group.  Returns output, group and group_size at loop exit. -/
def decodeLoop : List Nat → Nat → Nat → List Nat → List Nat × Nat × Nat
  | [], group, group_size, out => (out, group, group_size)
  | c :: rest, group, group_size, out =>
      if c = Base64PaddingCharacter then (out, group, group_size)
      else
        let octet := Base64ReverseTable c
        if octet = InvalidBase64Character then
          decodeLoop rest group group_size out
        else
          let group' := group * 64 + octet % 64
          let group_size' := group_size + 6
          if group_size' = 24 then
            decodeLoop rest 0 0
              (out ++ [group' / 65536 % 256, group' / 256 % 256, group' % 256])
          else decodeLoop rest group' group_size' out

/-- Partial-group flush after the loop of Decode in base64.cpp: a final
partial group is left-shifted to a full 24 bits and flushed as one octet,
a second octet when at least 16 bits were accumulated and a third at a
full 24. -/
def decodeFinish (r : List Nat × Nat × Nat) : List Nat :=
  if 0 < r.2.2 then
    let group' := r.2.1 * 2 ^ (24 - r.2.2)
    r.1 ++ [group' / 65536 % 256] ++
      (if 16 ≤ r.2.2 then
        [group' / 256 % 256] ++ (if r.2.2 = 24 then [group' % 256] else [])
      else [])
  else r.1

/-- Decode from base64.cpp. -/
def Decode (input : List Nat) : List Nat :=
  if input.length = 0 then [] else decodeFinish (decodeLoop input 0 0 [])

/-- Number of characters before the first padding character that are in
the alphabet: exactly the characters the decode loop accumulates. -/
def validCount (s : List Nat) : Nat :=
  ((s.takeWhile (fun c => c != Base64PaddingCharacter)).filter
    (fun c => Base64ReverseTable c != InvalidBase64Character)).length

end Base64

/-- Big-endian value of a byte sequence, the number radix-58 encoding
re-expresses in base 58. -/
def beVal (l : List Nat) : Nat := l.foldl (fun a b => a * 256 + b) 0

/-- One multiply-and-add pass over a little-endian digit list in the given
base: each digit d turns the running carry c into c + d * mult, emits
(c + d * mult) mod base and carries the quotient on.  Returns the mapped
digits and the final carry.  This is the mathematical core of both inner
loops of base58.cpp (encode: mult 256, base 58; decode: mult 58,
base 256). -/
def chainMulAdd (mult base : Nat) : Nat → List Nat → List Nat × Nat
  | c, [] => ([], c)
  | c, d :: ds =>
      let c' := c + d * mult
      let r := chainMulAdd mult base (c' / base) ds
      (c' % base :: r.1, r.2)

/-- Digit list after a full multiply-and-add pass, the final carry spelled
out into little-endian digits of the base. -/
def mulAddDigits (mult base c : Nat) (ds : List Nat) : List Nat :=
  (chainMulAdd mult base c ds).1 ++ Nat.digits base (chainMulAdd mult base c ds).2

/-! ### Base16: decode characterization and round trip -/

set_option maxRecDepth 10000 in
theorem base16_value_lt {c : Nat}
    (h : Base16.Base16ReverseTable c ≠ Base16.InvalidBase16Character) :
    Base16.Base16ReverseTable c < 16 := by
  have key : ∀ y, y < 256 →
      (Base16.B16ToInt y ≠ Base16.InvalidBase16Character →
        Base16.B16ToInt y < 16) := by decide
  exact key (c % 256) (Nat.mod_lt _ (by norm_num)) h

theorem base16_table_inv : ∀ v, v < 16 →
    Base16.Base16ReverseTable (Base16.Base16Table.getD v 0) = v := by decide

theorem base16_validNibbles_cons (c : Nat) (s : List Nat) :
    Base16.validNibbles (c :: s) =
      if Base16.Base16ReverseTable c = Base16.InvalidBase16Character
      then Base16.validNibbles s
      else Base16.Base16ReverseTable c :: Base16.validNibbles s := by
  by_cases h : Base16.Base16ReverseTable c = Base16.InvalidBase16Character <;>
    simp [Base16.validNibbles, List.filter_cons, h]

theorem base16_validNibbles_append (a b : List Nat) :
    Base16.validNibbles (a ++ b) =
      Base16.validNibbles a ++ Base16.validNibbles b := by
  simp [Base16.validNibbles, List.filter_append]

theorem base16_pairNibbles_cons (v : Nat) (l : List Nat) :
    Base16.pairNibbles (v :: l) = Base16.pairFrom v l := by
  cases l <;> rfl

theorem base16_decodeLoop_run (s : List Nat) :
    (∀ g out,
      (Base16.decodeLoop s g 0 out).1 =
        out ++ Base16.pairNibbles (Base16.validNibbles s) ∧
      (Base16.decodeLoop s g 0 out).2.2 =
        4 * ((Base16.validNibbles s).length % 2)) ∧
    (∀ g out,
      (Base16.decodeLoop s g 4 out).1 =
        out ++ Base16.pairFrom (g % 16) (Base16.validNibbles s) ∧
      (Base16.decodeLoop s g 4 out).2.2 =
        4 * (((Base16.validNibbles s).length + 1) % 2)) := by
  induction s with
  | nil =>
      simp [Base16.decodeLoop, Base16.pairNibbles, Base16.pairFrom,
        Base16.validNibbles]
  | cons c rest ih =>
      by_cases h : Base16.Base16ReverseTable c = Base16.InvalidBase16Character
      · have e0 : ∀ g out, Base16.decodeLoop (c :: rest) g 0 out =
            Base16.decodeLoop rest g 0 out := by
          intro g out; simp [Base16.decodeLoop, h]
        have e4 : ∀ g out, Base16.decodeLoop (c :: rest) g 4 out =
            Base16.decodeLoop rest g 4 out := by
          intro g out; simp [Base16.decodeLoop, h]
        constructor <;> intro g out
        · rw [e0, base16_validNibbles_cons, if_pos h]; exact ih.1 g out
        · rw [e4, base16_validNibbles_cons, if_pos h]; exact ih.2 g out
      · have hv : Base16.Base16ReverseTable c < 16 := base16_value_lt h
        have e0 : ∀ g out, Base16.decodeLoop (c :: rest) g 0 out =
            Base16.decodeLoop rest
              (g * 16 + Base16.Base16ReverseTable c % 16) 4 out := by
          intro g out; simp [Base16.decodeLoop, h]
        have e4 : ∀ g out, Base16.decodeLoop (c :: rest) g 4 out =
            Base16.decodeLoop rest
              (g * 16 + Base16.Base16ReverseTable c % 16) 0
              (out ++ [(g * 16 + Base16.Base16ReverseTable c % 16) % 256]) := by
          intro g out; simp [Base16.decodeLoop, h]
        constructor <;> intro g out
        · obtain ⟨h1, h2⟩ := ih.2 (g * 16 + Base16.Base16ReverseTable c % 16) out
          rw [e0, base16_validNibbles_cons, if_neg h]
          refine ⟨?_, ?_⟩
          · rw [h1, base16_pairNibbles_cons]
            have : (g * 16 + Base16.Base16ReverseTable c % 16) % 16 =
                Base16.Base16ReverseTable c := by omega
            rw [this]
          · rw [h2]; simp
        · obtain ⟨h1, h2⟩ := ih.1 (g * 16 + Base16.Base16ReverseTable c % 16)
            (out ++ [(g * 16 + Base16.Base16ReverseTable c % 16) % 256])
          rw [e4, base16_validNibbles_cons, if_neg h]
          refine ⟨?_, ?_⟩
          · rw [h1]
            have : (g * 16 + Base16.Base16ReverseTable c % 16) % 256 =
                g % 16 * 16 + Base16.Base16ReverseTable c := by omega
            rw [this]
            simp [Base16.pairFrom]
          · rw [h2]; simp only [List.length_cons]; omega

theorem base16_decode_characterization (s : List Nat) :
    ((Base16.validNibbles s).length % 2 = 1 → Base16.Decode s = []) ∧
    ((Base16.validNibbles s).length % 2 = 0 →
      Base16.Decode s = Base16.pairNibbles (Base16.validNibbles s)) := by
  by_cases hs : s.length = 0
  · have : s = [] := List.length_eq_zero.mp hs
    subst this
    constructor
    · intro h; simp [Base16.validNibbles] at h
    · intro _; simp [Base16.Decode, Base16.validNibbles, Base16.pairNibbles]
  · obtain ⟨h1, h2⟩ := (base16_decodeLoop_run s).1 0 []
    constructor
    · intro hodd
      simp only [Base16.Decode, if_neg hs]
      rw [if_pos]
      rw [h2, hodd]; norm_num
    · intro heven
      simp only [Base16.Decode, if_neg hs]
      rw [if_neg]
      · rw [h1]; simp
      · rw [h2, heven]; norm_num

theorem base16_encodeLoop_shift (x : List Nat) :
    ∀ out, Base16.encodeLoop x out = out ++ Base16.encodeLoop x [] := by
  induction x with
  | nil => intro out; simp [Base16.encodeLoop]
  | cons b rest ih =>
      intro out
      simp only [Base16.encodeLoop]
      rw [ih, ih ([] ++ _)]
      simp

theorem base16_decode_encode_core : ∀ x, (∀ b ∈ x, b < 256) →
    Base16.pairNibbles (Base16.validNibbles (Base16.encodeLoop x [])) = x ∧
    (Base16.validNibbles (Base16.encodeLoop x [])).length % 2 = 0 := by
  intro x
  induction x with
  | nil => intro _; simp [Base16.encodeLoop, Base16.validNibbles,
      Base16.pairNibbles]
  | cons b rest ih =>
      intro hx
      have hb : b < 256 := hx b (by simp)
      obtain ⟨ih1, ih2⟩ := ih (fun d hd => hx d (List.mem_cons_of_mem _ hd))
      have hhi : b / 16 % 16 = b / 16 := by omega
      have hv1 : Base16.Base16ReverseTable
          (Base16.Base16Table.getD (b / 16) 0) = b / 16 :=
        base16_table_inv _ (by omega)
      have hv2 : Base16.Base16ReverseTable
          (Base16.Base16Table.getD (b % 16) 0) = b % 16 :=
        base16_table_inv _ (by omega)
      have estep : Base16.encodeLoop (b :: rest) [] =
          [Base16.Base16Table.getD (b / 16) 0,
           Base16.Base16Table.getD (b % 16) 0] ++ Base16.encodeLoop rest [] := by
        simp only [Base16.encodeLoop, hhi]
        rw [base16_encodeLoop_shift]
        simp
      rw [estep, base16_validNibbles_append]
      have hvn : Base16.validNibbles
          [Base16.Base16Table.getD (b / 16) 0,
           Base16.Base16Table.getD (b % 16) 0] = [b / 16, b % 16] := by
        rw [base16_validNibbles_cons, base16_validNibbles_cons]
        rw [if_neg (by rw [hv1]; show ¬b / 16 = 255; omega),
          if_neg (by rw [hv2]; show ¬b % 16 = 255; omega)]
        rw [hv1, hv2]
        rfl
      rw [hvn]
      constructor
      · show Base16.pairNibbles (b / 16 :: b % 16 ::
          Base16.validNibbles (Base16.encodeLoop rest [])) = b :: rest
        show (b / 16 * 16 + b % 16) :: Base16.pairNibbles _ = b :: rest
        rw [ih1]
        congr 1
        omega
      · simp only [List.length_append, List.length_cons, List.length_nil]
        omega

theorem base16_roundtrip (x : List Nat) (hx : ∀ b ∈ x, b < 256) :
    Base16.Decode (Base16.Encode x) = x := by
  by_cases hx0 : x.length = 0
  · have : x = [] := List.length_eq_zero.mp hx0
    subst this
    rfl
  · have he : Base16.Encode x = Base16.encodeLoop x [] := by
      simp [Base16.Encode, hx0]
    obtain ⟨hpair, heven⟩ := base16_decode_encode_core x hx
    rw [he]
    rw [(base16_decode_characterization (Base16.encodeLoop x [])).2 heven]
    exact hpair

/-! ### Base45: decode characterization, encode shape and round trip -/

theorem mod65536_div256 (a : Nat) : a % 65536 / 256 = a / 256 % 256 := by
  omega

set_option maxRecDepth 10000 in
theorem base45_value_lt {c : Nat}
    (h : Base45.Base45ReverseTable c ≠ Base45.InvalidBase45Character) :
    Base45.Base45ReverseTable c < 45 := by
  have key : ∀ y, y < 256 →
      (Base45.B45ToInt y ≠ Base45.InvalidBase45Character →
        Base45.B45ToInt y < 45) := by decide
  exact key (c % 256) (Nat.mod_lt _ (by norm_num)) h

set_option maxRecDepth 10000 in
theorem base45_table_inv : ∀ v, v < 45 →
    Base45.Base45ReverseTable (Base45.Base45Table.getD v 0) = v := by decide

theorem base45_vals_cons (c : Nat) (s : List Nat) :
    Base45.vals (c :: s) =
      if Base45.Base45ReverseTable c = Base45.InvalidBase45Character
      then Base45.vals s
      else Base45.Base45ReverseTable c :: Base45.vals s := by
  by_cases h : Base45.Base45ReverseTable c = Base45.InvalidBase45Character <;>
    simp [Base45.vals, List.filter_cons, h]

theorem base45_vals_append (a b : List Nat) :
    Base45.vals (a ++ b) = Base45.vals a ++ Base45.vals b := by
  simp [Base45.vals, List.filter_append]

theorem base45_decodeLoop_run (s : List Nat) :
    (∀ out, Base45.decodeLoop s 0 0 out =
      (Base45.decodeGroups (Base45.vals s)).map (fun t => out ++ t)) ∧
    (∀ v0 out, v0 < 45 →
      Base45.decodeLoop s v0 1 out =
        (Base45.decodeGroups (v0 :: Base45.vals s)).map (fun t => out ++ t)) ∧
    (∀ v0 v1 out, v0 < 45 → v1 < 45 →
      Base45.decodeLoop s (v0 * 256 + v1) 2 out =
        (Base45.decodeGroups (v0 :: v1 :: Base45.vals s)).map
          (fun t => out ++ t)) := by
  induction s with
  | nil =>
      refine ⟨fun out => ?_, fun v0 out hv0 => ?_, fun v0 v1 out hv0 hv1 => ?_⟩
      · simp [Base45.decodeLoop, Base45.decodeGroups]
      · simp [Base45.decodeLoop, Base45.decodeGroups]
      · have e1 : (v0 * 256 + v1) / 256 % 256 = v0 := by omega
        have e2 : (v0 * 256 + v1) % 256 = v1 := by omega
        simp [Base45.decodeLoop, Base45.decodeGroups, e1, e2]
  | cons c rest ih =>
      by_cases h : Base45.Base45ReverseTable c = Base45.InvalidBase45Character
      · refine ⟨fun out => ?_, fun v0 out hv0 => ?_,
          fun v0 v1 out hv0 hv1 => ?_⟩
        · rw [show Base45.decodeLoop (c :: rest) 0 0 out =
              Base45.decodeLoop rest 0 0 out by simp [Base45.decodeLoop, h]]
          rw [base45_vals_cons, if_pos h]
          exact ih.1 out
        · rw [show Base45.decodeLoop (c :: rest) v0 1 out =
              Base45.decodeLoop rest v0 1 out by simp [Base45.decodeLoop, h]]
          rw [base45_vals_cons, if_pos h]
          exact ih.2.1 v0 out hv0
        · rw [show Base45.decodeLoop (c :: rest) (v0 * 256 + v1) 2 out =
              Base45.decodeLoop rest (v0 * 256 + v1) 2 out by
                simp [Base45.decodeLoop, h]]
          rw [base45_vals_cons, if_pos h]
          exact ih.2.2 v0 v1 out hv0 hv1
      · have hv : Base45.Base45ReverseTable c < 45 := base45_value_lt h
        refine ⟨fun out => ?_, fun v0 out hv0 => ?_,
          fun v0 v1 out hv0 hv1 => ?_⟩
        · rw [show Base45.decodeLoop (c :: rest) 0 0 out =
              Base45.decodeLoop rest (Base45.Base45ReverseTable c) 1 out by
                simp [Base45.decodeLoop, h]]
          rw [base45_vals_cons, if_neg h]
          exact ih.2.1 _ out hv
        · rw [show Base45.decodeLoop (c :: rest) v0 1 out =
              Base45.decodeLoop rest
                (v0 * 256 + Base45.Base45ReverseTable c) 2 out by
                simp [Base45.decodeLoop, h]]
          rw [base45_vals_cons, if_neg h]
          exact ih.2.2 v0 _ out hv0 hv
        · have hg : ∀ a b d : Nat, a < 45 → b < 45 → d < 45 →
              ((a * 256 + b) * 256 + d) / 65536 % 256 = a ∧
              ((a * 256 + b) * 256 + d) / 256 % 256 = b ∧
              ((a * 256 + b) * 256 + d) % 256 = d := by
            intro a b d ha hb hd
            refine ⟨by omega, by omega, by omega⟩
          obtain ⟨g1, g2, g3⟩ := hg v0 v1 (Base45.Base45ReverseTable c) hv0 hv1 hv
          rw [show Base45.decodeLoop (c :: rest) (v0 * 256 + v1) 2 out =
              Base45.decodeLoop rest 0 0
                (out ++ [(v0 + v1 * 45 + Base45.Base45ReverseTable c * 2025) /
                    256 % 256,
                  (v0 + v1 * 45 + Base45.Base45ReverseTable c * 2025) % 256]) by
                simp only [Base45.decodeLoop, if_neg h]
                norm_num [g1, g2, g3]]
          rw [base45_vals_cons, if_neg h]
          rw [ih.1 _]
          simp only [Base45.decodeGroups]
          cases Base45.decodeGroups (Base45.vals rest) with
          | none => rfl
          | some t =>
              simp [mod65536_div256]

theorem base45_decode_eq (s : List Nat) :
    Base45.Decode s = (Base45.decodeGroups (Base45.vals s)).getD [] := by
  by_cases hs : s.length = 0
  · have : s = [] := List.length_eq_zero.mp hs
    subst this
    simp [Base45.Decode, Base45.vals, Base45.decodeGroups]
  · simp only [Base45.Decode, if_neg hs]
    rw [(base45_decodeLoop_run s).1 []]
    cases Base45.decodeGroups (Base45.vals s) with
    | none => rfl
    | some t => simp

theorem base45_decodeGroups_split : ∀ (l : List Nat),
    (l.length % 3 = 0 → Base45.decodeGroups l = some (Base45.decodeFull l)) ∧
    (l.length % 3 = 1 → Base45.decodeGroups l = none) ∧
    (l.length % 3 = 2 → Base45.decodeGroups l =
      some (Base45.decodeFull (l.take (l.length - 2)) ++
        [(l.getD (l.length - 2) 0 + l.getD (l.length - 1) 0 * 45) % 256]))
  | [] => by
      refine ⟨fun _ => rfl, fun hc => by simp at hc, fun hc => by simp at hc⟩
  | [a] => by
      refine ⟨fun hc => by simp at hc, fun _ => rfl, fun hc => by simp at hc⟩
  | [a, b] => by
      refine ⟨fun hc => by simp at hc, fun hc => by simp at hc, fun _ => ?_⟩
      simp [Base45.decodeGroups, Base45.decodeFull]
  | a :: b :: c :: rest => by
      obtain ⟨ih0, ih1, ih2⟩ := base45_decodeGroups_split rest
      have hlen : (a :: b :: c :: rest).length = rest.length + 3 := by
        simp
      refine ⟨fun hc => ?_, fun hc => ?_, fun hc => ?_⟩
      · have : rest.length % 3 = 0 := by omega
        simp only [Base45.decodeGroups, ih0 this, Option.map_some]
        rfl
      · have : rest.length % 3 = 1 := by omega
        simp only [Base45.decodeGroups, ih1 this]
        rfl
      · have h2 : rest.length % 3 = 2 := by omega
        have hr2 : 2 ≤ rest.length := by omega
        simp only [Base45.decodeGroups, ih2 h2, Option.map_some]
        have htake : (a :: b :: c :: rest).take ((a :: b :: c :: rest).length - 2) =
            a :: b :: c :: rest.take (rest.length - 2) := by
          rw [hlen]
          have : rest.length + 3 - 2 = (rest.length - 2) + 3 := by omega
          rw [this]
          rfl
        have hg1 : (a :: b :: c :: rest).getD ((a :: b :: c :: rest).length - 2) 0 =
            rest.getD (rest.length - 2) 0 := by
          rw [hlen]
          have : rest.length + 3 - 2 = (rest.length - 2) + 3 := by omega
          rw [this]
          rfl
        have hg2 : (a :: b :: c :: rest).getD ((a :: b :: c :: rest).length - 1) 0 =
            rest.getD (rest.length - 1) 0 := by
          rw [hlen]
          have : rest.length + 3 - 1 = (rest.length - 1) + 3 := by omega
          rw [this]
          rfl
        rw [htake, hg1, hg2]
        simp [Base45.decodeFull]

theorem base45_encodeLoop_run (x : List Nat) :
    (∀ out, Base45.encodeLoop x 0 0 out = out ++ Base45.encodePairs x) ∧
    (∀ b0 out, Base45.encodeLoop x b0 1 out =
      out ++ Base45.encodePairs (b0 :: x)) := by
  induction x with
  | nil =>
      refine ⟨fun out => by simp [Base45.encodeLoop, Base45.encodePairs],
        fun b0 out => by simp [Base45.encodeLoop, Base45.encodePairs]⟩
  | cons b rest ih =>
      refine ⟨fun out => ?_, fun b0 out => ?_⟩
      · rw [show Base45.encodeLoop (b :: rest) 0 0 out =
            Base45.encodeLoop rest b 1 out by simp [Base45.encodeLoop]]
        rw [ih.2 b out]
      · rw [show Base45.encodeLoop (b :: rest) b0 1 out =
            Base45.encodeLoop rest 0 0
              (out ++ [Base45.Base45Table.getD ((b0 * 256 + b) % 45) 0,
                Base45.Base45Table.getD ((b0 * 256 + b) / 45 % 45) 0,
                Base45.Base45Table.getD ((b0 * 256 + b) / 2025 % 45) 0]) by
              simp [Base45.encodeLoop]]
        rw [ih.1 _]
        simp [Base45.encodePairs]

theorem base45_encode_eq (x : List Nat) :
    Base45.Encode x = Base45.encodePairs x := by
  by_cases hx : x.length = 0
  · have : x = [] := List.length_eq_zero.mp hx
    subst this
    rfl
  · simp only [Base45.Encode, if_neg hx]
    rw [(base45_encodeLoop_run x).1 []]
    rfl

theorem base45_groups_encode : ∀ (x : List Nat), (∀ b ∈ x, b < 256) →
    Base45.decodeGroups (Base45.vals (Base45.encodePairs x)) = some x
  | [], _ => rfl
  | [b], hx => by
      have hb : b < 256 := hx b (by simp)
      have t1 := base45_table_inv (b % 45) (by omega)
      have t2 := base45_table_inv (b / 45 % 45) (by omega)
      show Base45.decodeGroups (Base45.vals
        [Base45.Base45Table.getD (b % 45) 0,
         Base45.Base45Table.getD (b / 45 % 45) 0]) = some [b]
      rw [base45_vals_cons, if_neg (by rw [t1]; show ¬b % 45 = 255; omega),
        base45_vals_cons, if_neg (by rw [t2]; show ¬b / 45 % 45 = 255; omega)]
      rw [t1, t2]
      show some [(b % 45 + b / 45 % 45 * 45) % 256] = some [b]
      have : b % 45 + b / 45 % 45 * 45 = b := by omega
      rw [this, Nat.mod_eq_of_lt hb]
  | b0 :: b1 :: rest, hx => by
      have hb0 : b0 < 256 := hx b0 (by simp)
      have hb1 : b1 < 256 := hx b1 (by simp)
      have ih := base45_groups_encode rest
        (fun d hd => hx d (by simp [hd]))
      have t1 := base45_table_inv ((b0 * 256 + b1) % 45) (by omega)
      have t2 := base45_table_inv ((b0 * 256 + b1) / 45 % 45) (by omega)
      have t3 := base45_table_inv ((b0 * 256 + b1) / 2025 % 45) (by omega)
      show Base45.decodeGroups (Base45.vals
        (Base45.Base45Table.getD ((b0 * 256 + b1) % 45) 0 ::
         Base45.Base45Table.getD ((b0 * 256 + b1) / 45 % 45) 0 ::
         Base45.Base45Table.getD ((b0 * 256 + b1) / 2025 % 45) 0 ::
         Base45.encodePairs rest)) = some (b0 :: b1 :: rest)
      rw [base45_vals_cons,
        if_neg (by rw [t1]; show ¬(b0 * 256 + b1) % 45 = 255; omega),
        base45_vals_cons,
        if_neg (by rw [t2]; show ¬(b0 * 256 + b1) / 45 % 45 = 255; omega),
        base45_vals_cons,
        if_neg (by rw [t3]; show ¬(b0 * 256 + b1) / 2025 % 45 = 255; omega)]
      rw [t1, t2, t3]
      have hdd : (b0 * 256 + b1) / 45 / 45 = (b0 * 256 + b1) / 2025 := by
        rw [Nat.div_div_eq_div_mul]
      have hval : (b0 * 256 + b1) % 45 + (b0 * 256 + b1) / 45 % 45 * 45 +
          (b0 * 256 + b1) / 2025 % 45 * 2025 = b0 * 256 + b1 := by
        omega
      have e1 : (b0 * 256 + b1) % 65536 / 256 = b0 := by omega
      have e2 : (b0 * 256 + b1) % 256 = b1 := by omega
      simp only [Base45.decodeGroups]
      rw [ih]
      simp only [Option.map_some']
      rw [hval, e1, e2]

theorem base45_roundtrip (x : List Nat) (hx : ∀ b ∈ x, b < 256) :
    Base45.Decode (Base45.Encode x) = x := by
  rw [base45_encode_eq, base45_decode_eq, base45_groups_encode x hx]
  rfl

/-! ### Base64: decode-state invariant, flush shape and round trip -/

set_option maxRecDepth 20000 in
theorem base64_value_lt {c : Nat}
    (h : Base64.Base64ReverseTable c ≠ Base64.InvalidBase64Character) :
    Base64.Base64ReverseTable c < 64 := by
  have key : ∀ y, y < 256 →
      (Base64.B64ToInt y ≠ Base64.InvalidBase64Character →
        Base64.B64ToInt y < 64) := by decide
  exact key (c % 256) (Nat.mod_lt _ (by norm_num)) h

set_option maxRecDepth 20000 in
theorem base64_table_inv : ∀ v, v < 64 →
    Base64.Base64ReverseTable (Base64.Base64Table.getD v 0) = v ∧
    Base64.Base64Table.getD v 0 ≠ Base64.Base64PaddingCharacter := by decide

theorem base64_validCount_pad (s : List Nat) :
    Base64.validCount (Base64.Base64PaddingCharacter :: s) = 0 := by
  simp [Base64.validCount]

theorem base64_validCount_cons (c : Nat) (s : List Nat)
    (h1 : c ≠ Base64.Base64PaddingCharacter) :
    Base64.validCount (c :: s) =
      if Base64.Base64ReverseTable c = Base64.InvalidBase64Character
      then Base64.validCount s
      else Base64.validCount s + 1 := by
  by_cases h2 : Base64.Base64ReverseTable c = Base64.InvalidBase64Character <;>
    simp [Base64.validCount, List.takeWhile_cons, List.filter_cons, h1, h2]

theorem base64_decodeLoop_count (s : List Nat) : ∀ g out,
    ((Base64.decodeLoop s g 0 out).2.2 =
        6 * (Base64.validCount s % 4) ∧
      (Base64.decodeLoop s g 0 out).1.length =
        out.length + 3 * (Base64.validCount s / 4)) ∧
    ((Base64.decodeLoop s g 6 out).2.2 =
        6 * ((1 + Base64.validCount s) % 4) ∧
      (Base64.decodeLoop s g 6 out).1.length =
        out.length + 3 * ((1 + Base64.validCount s) / 4)) ∧
    ((Base64.decodeLoop s g 12 out).2.2 =
        6 * ((2 + Base64.validCount s) % 4) ∧
      (Base64.decodeLoop s g 12 out).1.length =
        out.length + 3 * ((2 + Base64.validCount s) / 4)) ∧
    ((Base64.decodeLoop s g 18 out).2.2 =
        6 * ((3 + Base64.validCount s) % 4) ∧
      (Base64.decodeLoop s g 18 out).1.length =
        out.length + 3 * ((3 + Base64.validCount s) / 4)) := by
  induction s with
  | nil =>
      intro g out
      simp [Base64.decodeLoop, Base64.validCount]
  | cons c rest ih =>
      intro g out
      by_cases h1 : c = Base64.Base64PaddingCharacter
      · subst h1
        have hc : Base64.validCount
            (Base64.Base64PaddingCharacter :: rest) = 0 :=
          base64_validCount_pad rest
        rw [hc]
        have e : ∀ gs, Base64.decodeLoop
            (Base64.Base64PaddingCharacter :: rest) g gs out = (out, g, gs) := by
          intro gs; simp [Base64.decodeLoop]
        simp [e]
      · by_cases h2 : Base64.Base64ReverseTable c =
            Base64.InvalidBase64Character
        · have hc := base64_validCount_cons c rest h1
          rw [if_pos h2] at hc
          have e : ∀ gs, Base64.decodeLoop (c :: rest) g gs out =
              Base64.decodeLoop rest g gs out := by
            intro gs; simp [Base64.decodeLoop, h1, h2]
          rw [hc]
          simp only [e]
          exact ih g out
        · have hc := base64_validCount_cons c rest h1
          rw [if_neg h2] at hc
          rw [hc]
          have e0 : Base64.decodeLoop (c :: rest) g 0 out =
              Base64.decodeLoop rest
                (g * 64 + Base64.Base64ReverseTable c % 64) 6 out := by
            simp [Base64.decodeLoop, h1, h2]
          have e6 : Base64.decodeLoop (c :: rest) g 6 out =
              Base64.decodeLoop rest
                (g * 64 + Base64.Base64ReverseTable c % 64) 12 out := by
            simp [Base64.decodeLoop, h1, h2]
          have e12 : Base64.decodeLoop (c :: rest) g 12 out =
              Base64.decodeLoop rest
                (g * 64 + Base64.Base64ReverseTable c % 64) 18 out := by
            simp [Base64.decodeLoop, h1, h2]
          have e18 : Base64.decodeLoop (c :: rest) g 18 out =
              Base64.decodeLoop rest 0 0
                (out ++ [(g * 64 + Base64.Base64ReverseTable c % 64) /
                    65536 % 256,
                  (g * 64 + Base64.Base64ReverseTable c % 64) / 256 % 256,
                  (g * 64 + Base64.Base64ReverseTable c % 64) % 256]) := by
            simp [Base64.decodeLoop, h1, h2]
          refine ⟨?_, ?_, ?_, ?_⟩
          · rw [e0]
            obtain ⟨ha, hb⟩ := (ih _ out).2.1
            constructor
            · rw [ha]; congr 1; omega
            · rw [hb]; congr 1; omega
          · rw [e6]
            obtain ⟨ha, hb⟩ := (ih _ out).2.2.1
            constructor
            · rw [ha]; congr 1; omega
            · rw [hb]; congr 1; omega
          · rw [e12]
            obtain ⟨ha, hb⟩ := (ih _ out).2.2.2
            constructor
            · rw [ha]; congr 1; omega
            · rw [hb]; congr 1; omega
          · rw [e18]
            obtain ⟨ha, hb⟩ := (ih 0 _).1
            constructor
            · rw [ha]; congr 1; omega
            · rw [hb]
              simp only [List.length_append, List.length_cons,
                List.length_nil]
              omega

theorem base64_char_step (v : Nat) (hv : v < 64) (rest : List Nat)
    (g gs : Nat) (out : List Nat) (h24 : gs + 6 ≠ 24) :
    Base64.decodeLoop (Base64.Base64Table.getD v 0 :: rest) g gs out =
      Base64.decodeLoop rest (g * 64 + v) (gs + 6) out := by
  have t := base64_table_inv v hv
  have hne : ¬(Base64.Base64ReverseTable (Base64.Base64Table.getD v 0) =
      Base64.InvalidBase64Character) := by
    rw [t.1]; show ¬v = 255; omega
  have hne' : ¬(v = Base64.InvalidBase64Character) := by
    show ¬v = 255; omega
  have hm : v % 64 = v := Nat.mod_eq_of_lt hv
  simp only [Base64.decodeLoop, if_neg t.2, if_neg hne, t.1, hm, if_neg hne',
    if_neg h24]

theorem base64_char_step24 (v : Nat) (hv : v < 64) (rest : List Nat)
    (g : Nat) (out : List Nat) :
    Base64.decodeLoop (Base64.Base64Table.getD v 0 :: rest) g 18 out =
      Base64.decodeLoop rest 0 0
        (out ++ [(g * 64 + v) / 65536 % 256, (g * 64 + v) / 256 % 256,
          (g * 64 + v) % 256]) := by
  have t := base64_table_inv v hv
  have hne : ¬(Base64.Base64ReverseTable (Base64.Base64Table.getD v 0) =
      Base64.InvalidBase64Character) := by
    rw [t.1]; show ¬v = 255; omega
  have hne' : ¬(v = Base64.InvalidBase64Character) := by
    show ¬v = 255; omega
  have hm : v % 64 = v := Nat.mod_eq_of_lt hv
  simp only [Base64.decodeLoop, if_neg t.2, if_neg hne, t.1, hm, if_neg hne',
    if_pos (show 18 + 6 = 24 by norm_num)]
  norm_num

theorem base64_pad_stop (rest : List Nat) (g gs : Nat) (out : List Nat) :
    Base64.decodeLoop (Base64.Base64PaddingCharacter :: rest) g gs out =
      (out, g, gs) := by
  simp [Base64.decodeLoop]

theorem base64_finish0 (out : List Nat) (g : Nat) :
    Base64.decodeFinish (out, g, 0) = out := by
  simp [Base64.decodeFinish]

theorem base64_finish12 (out : List Nat) (g : Nat) :
    Base64.decodeFinish (out, g, 12) = out ++ [g * 4096 / 65536 % 256] := by
  simp [Base64.decodeFinish]

theorem base64_finish18 (out : List Nat) (g : Nat) :
    Base64.decodeFinish (out, g, 18) =
      out ++ [g * 64 / 65536 % 256, g * 64 / 256 % 256] := by
  simp [Base64.decodeFinish]

theorem base64_encodeLoop_shift (x : List Nat) :
    ∀ g gs out, Base64.encodeLoop x g gs out =
      out ++ Base64.encodeLoop x g gs [] := by
  induction x with
  | nil =>
      intro g gs out
      by_cases h : 0 < gs
      · by_cases h8 : gs = 8 <;> simp [Base64.encodeLoop, h, h8]
      · simp [Base64.encodeLoop, h]
  | cons b rest ih =>
      intro g gs out
      by_cases h : gs + 8 = 24
      · simp only [Base64.encodeLoop, if_pos h]
        rw [ih _ _ (out ++ _), ih _ _ ([] ++ _)]
        simp
      · simp only [Base64.encodeLoop, if_neg h]
        exact ih _ _ out

theorem base64_rt_core : ∀ (x : List Nat), (∀ b ∈ x, b < 256) → ∀ out,
    Base64.decodeFinish
      (Base64.decodeLoop (Base64.encodeLoop x 0 0 []) 0 0 out) = out ++ x
  | [], _ => by
      intro out
      simp [Base64.encodeLoop, Base64.decodeLoop, Base64.decodeFinish]
  | [b], hx => by
      intro out
      have hb : b < 256 := hx b (by simp)
      have he : Base64.encodeLoop [b] 0 0 [] =
          [Base64.Base64Table.getD (b * 65536 / 262144 % 64) 0,
           Base64.Base64Table.getD (b * 65536 / 4096 % 64) 0,
           Base64.Base64PaddingCharacter, Base64.Base64PaddingCharacter] := by
        simp [Base64.encodeLoop]
      rw [he]
      rw [base64_char_step _ (by omega) _ 0 0 out (by omega)]
      rw [base64_char_step _ (by omega) _ _ 6 out (by omega)]
      rw [base64_pad_stop]
      rw [base64_finish12]
      have : ((0 * 64 + b * 65536 / 262144 % 64) * 64 +
          b * 65536 / 4096 % 64) * 4096 / 65536 % 256 = b := by omega
      rw [this]
  | [b0, b1], hx => by
      intro out
      have hb0 : b0 < 256 := hx b0 (by simp)
      have hb1 : b1 < 256 := hx b1 (by simp)
      have he : Base64.encodeLoop [b0, b1] 0 0 [] =
          [Base64.Base64Table.getD ((b0 * 256 + b1) * 256 / 262144 % 64) 0,
           Base64.Base64Table.getD ((b0 * 256 + b1) * 256 / 4096 % 64) 0,
           Base64.Base64Table.getD ((b0 * 256 + b1) * 256 / 64 % 64) 0,
           Base64.Base64PaddingCharacter] := by
        simp [Base64.encodeLoop]
      rw [he]
      rw [base64_char_step _ (by omega) _ 0 0 out (by omega)]
      rw [base64_char_step _ (by omega) _ _ 6 out (by omega)]
      rw [base64_char_step _ (by omega) _ _ 12 out (by omega)]
      rw [base64_pad_stop]
      rw [base64_finish18]
      have h2 : (((0 * 64 + (b0 * 256 + b1) * 256 / 262144 % 64) * 64 +
          (b0 * 256 + b1) * 256 / 4096 % 64) * 64 +
          (b0 * 256 + b1) * 256 / 64 % 64) * 64 / 65536 % 256 = b0 := by omega
      have h3 : (((0 * 64 + (b0 * 256 + b1) * 256 / 262144 % 64) * 64 +
          (b0 * 256 + b1) * 256 / 4096 % 64) * 64 +
          (b0 * 256 + b1) * 256 / 64 % 64) * 64 / 256 % 256 = b1 := by omega
      rw [h2, h3]
  | b0 :: b1 :: b2 :: rest, hx => by
      intro out
      have hb0 : b0 < 256 := hx b0 (by simp)
      have hb1 : b1 < 256 := hx b1 (by simp)
      have hb2 : b2 < 256 := hx b2 (by simp)
      have ih := base64_rt_core rest (fun d hd => hx d (by simp [hd]))
      have he : Base64.encodeLoop (b0 :: b1 :: b2 :: rest) 0 0 [] =
          Base64.Base64Table.getD
              (((b0 * 256 + b1) * 256 + b2) / 262144 % 64) 0 ::
          Base64.Base64Table.getD
              (((b0 * 256 + b1) * 256 + b2) / 4096 % 64) 0 ::
          Base64.Base64Table.getD
              (((b0 * 256 + b1) * 256 + b2) / 64 % 64) 0 ::
          Base64.Base64Table.getD (((b0 * 256 + b1) * 256 + b2) % 64) 0 ::
          Base64.encodeLoop rest 0 0 [] := by
        simp only [Base64.encodeLoop]
        norm_num
        rw [base64_encodeLoop_shift rest 0 0]
        simp
      rw [he]
      rw [base64_char_step _ (by omega) _ 0 0 out (by omega)]
      rw [base64_char_step _ (by omega) _ _ 6 out (by omega)]
      rw [base64_char_step _ (by omega) _ _ 12 out (by omega)]
      rw [base64_char_step24 _ (by omega) _ _ out]
      have h1 : (((0 * 64 + ((b0 * 256 + b1) * 256 + b2) / 262144 % 64) * 64 +
          ((b0 * 256 + b1) * 256 + b2) / 4096 % 64) * 64 +
          ((b0 * 256 + b1) * 256 + b2) / 64 % 64) * 64 +
          ((b0 * 256 + b1) * 256 + b2) % 64 = (b0 * 256 + b1) * 256 + b2 := by
        omega
      rw [h1]
      have h2 : ((b0 * 256 + b1) * 256 + b2) / 65536 % 256 = b0 := by omega
      have h3 : ((b0 * 256 + b1) * 256 + b2) / 256 % 256 = b1 := by omega
      have h4 : ((b0 * 256 + b1) * 256 + b2) % 256 = b2 := by omega
      rw [h2, h3, h4]
      rw [ih (out ++ [b0, b1, b2])]
      simp

theorem base64_decode_eq (s : List Nat) (hs : s ≠ []) :
    Base64.Decode s = Base64.decodeFinish (Base64.decodeLoop s 0 0 []) := by
  have : s.length ≠ 0 := by simpa [List.length_eq_zero] using hs
  simp [Base64.Decode, this]

theorem base64_roundtrip (x : List Nat) (hx : ∀ b ∈ x, b < 256) :
    Base64.Decode (Base64.Encode x) = x := by
  by_cases hx0 : x.length = 0
  · have : x = [] := List.length_eq_zero.mp hx0
    subst this
    rfl
  · have he : Base64.Encode x = Base64.encodeLoop x 0 0 [] := by
      simp [Base64.Encode, hx0]
    have hmain := base64_rt_core x hx []
    have hne : Base64.encodeLoop x 0 0 [] ≠ [] := by
      intro h
      rw [h] at hmain
      simp [Base64.decodeLoop, Base64.decodeFinish] at hmain
      exact hx0 (by simp [← hmain])
    rw [he, base64_decode_eq _ hne, hmain]
    simp

/-! ### Base32: encode shape, decode steps and round trip -/

set_option maxRecDepth 20000 in
theorem base32_table_inv : ∀ v, v < 32 →
    Base32.Base32ReverseTable (Base32.Base32Table.getD v 0) = v ∧
    Base32.Base32Table.getD v 0 ≠ Base32.Base32PaddingCharacter := by decide

theorem base32_emit5_unfold (group gs q : Nat) (out : List Nat) :
    Base32.emit5 group gs q out =
      (if 5 ≤ gs - 5 then
        Base32.emit5 group (gs - 5) (q + 1)
          (out ++ [Base32.Base32Table.getD (group / 2 ^ (gs - 5) % 32) 0])
      else (out ++ [Base32.Base32Table.getD (group / 2 ^ (gs - 5) % 32) 0],
        gs - 5, q + 1)) := by
  rw [Base32.emit5]
  split <;> rfl

theorem base32_emit5_shift : ∀ (gs : Nat) (group q : Nat) (out : List Nat),
    Base32.emit5 group gs q out =
      (out ++ (Base32.emit5 group gs q []).1,
        (Base32.emit5 group gs q []).2.1, (Base32.emit5 group gs q []).2.2) := by
  intro gs
  induction gs using Nat.strong_induction_on with
  | _ gs ih =>
      intro group q out
      by_cases h : 5 ≤ gs - 5
      · rw [base32_emit5_unfold group gs q out, base32_emit5_unfold group gs q [],
          if_pos h, if_pos h]
        rw [ih (gs - 5) (by omega) group (q + 1)
          (out ++ [Base32.Base32Table.getD (group / 2 ^ (gs - 5) % 32) 0])]
        rw [ih (gs - 5) (by omega) group (q + 1)
          ([] ++ [Base32.Base32Table.getD (group / 2 ^ (gs - 5) % 32) 0])]
        simp
      · rw [base32_emit5_unfold group gs q out, base32_emit5_unfold group gs q [],
          if_neg h, if_neg h]
        simp

theorem base32_encodeLoop_shift : ∀ (x : List Nat) (g gs q : Nat)
    (out : List Nat),
    Base32.encodeLoop x g gs q out = out ++ Base32.encodeLoop x g gs q [] := by
  intro x
  induction x with
  | nil =>
      intro g gs q out
      by_cases h : 0 < gs
      · by_cases h8 : q + 1 < 8 <;> simp [Base32.encodeLoop, h, h8]
      · simp [Base32.encodeLoop, h]
  | cons b rest ih =>
      intro g gs q out
      simp only [Base32.encodeLoop]
      rw [base32_emit5_shift (gs + 8) (g * 256 + b) q out]
      dsimp only
      rw [ih _ _ _ (out ++ (Base32.emit5 (g * 256 + b) (gs + 8) q []).1)]
      rw [ih _ _ _ (Base32.emit5 (g * 256 + b) (gs + 8) q []).1]
      simp

theorem base32_enc1 (g b0 : Nat) :
    Base32.encodeLoop [b0] g 0 0 [] =
      [Base32.Base32Table.getD ((g * 256 + b0) / 8 % 32) 0,
       Base32.Base32Table.getD ((g * 256 + b0) * 4 % 32) 0] ++
        List.replicate 6 61 := by
  simp [Base32.encodeLoop, Base32.emit5, Base32.Base32PaddingCharacter]

theorem base32_enc2 (g b0 b1 : Nat) :
    Base32.encodeLoop [b0, b1] g 0 0 [] =
      [Base32.Base32Table.getD ((g * 256 + b0) / 8 % 32) 0,
       Base32.Base32Table.getD (((g * 256 + b0) * 256 + b1) / 64 % 32) 0,
       Base32.Base32Table.getD (((g * 256 + b0) * 256 + b1) / 2 % 32) 0,
       Base32.Base32Table.getD (((g * 256 + b0) * 256 + b1) * 16 % 32) 0] ++
        List.replicate 4 61 := by
  simp [Base32.encodeLoop, Base32.emit5, Base32.Base32PaddingCharacter]

theorem base32_enc3 (g b0 b1 b2 : Nat) :
    Base32.encodeLoop [b0, b1, b2] g 0 0 [] =
      [Base32.Base32Table.getD ((g * 256 + b0) / 8 % 32) 0,
       Base32.Base32Table.getD (((g * 256 + b0) * 256 + b1) / 64 % 32) 0,
       Base32.Base32Table.getD (((g * 256 + b0) * 256 + b1) / 2 % 32) 0,
       Base32.Base32Table.getD
         ((((g * 256 + b0) * 256 + b1) * 256 + b2) / 16 % 32) 0,
       Base32.Base32Table.getD
         ((((g * 256 + b0) * 256 + b1) * 256 + b2) * 2 % 32) 0] ++
        List.replicate 3 61 := by
  simp [Base32.encodeLoop, Base32.emit5, Base32.Base32PaddingCharacter]

theorem base32_enc4 (g b0 b1 b2 b3 : Nat) :
    Base32.encodeLoop [b0, b1, b2, b3] g 0 0 [] =
      [Base32.Base32Table.getD ((g * 256 + b0) / 8 % 32) 0,
       Base32.Base32Table.getD (((g * 256 + b0) * 256 + b1) / 64 % 32) 0,
       Base32.Base32Table.getD (((g * 256 + b0) * 256 + b1) / 2 % 32) 0,
       Base32.Base32Table.getD
         ((((g * 256 + b0) * 256 + b1) * 256 + b2) / 16 % 32) 0,
       Base32.Base32Table.getD
         (((((g * 256 + b0) * 256 + b1) * 256 + b2) * 256 + b3) / 128 % 32) 0,
       Base32.Base32Table.getD
         (((((g * 256 + b0) * 256 + b1) * 256 + b2) * 256 + b3) / 4 % 32) 0,
       Base32.Base32Table.getD
         (((((g * 256 + b0) * 256 + b1) * 256 + b2) * 256 + b3) * 8 % 32) 0] ++
        List.replicate 1 61 := by
  simp [Base32.encodeLoop, Base32.emit5, Base32.Base32PaddingCharacter]

theorem base32_enc5 (g b0 b1 b2 b3 b4 : Nat) (rest out : List Nat) :
    Base32.encodeLoop (b0 :: b1 :: b2 :: b3 :: b4 :: rest) g 0 0 out =
      Base32.encodeLoop rest
        (((((g * 256 + b0) * 256 + b1) * 256 + b2) * 256 + b3) * 256 + b4) 0 0
        (out ++
      [Base32.Base32Table.getD ((g * 256 + b0) / 8 % 32) 0,
       Base32.Base32Table.getD (((g * 256 + b0) * 256 + b1) / 64 % 32) 0,
       Base32.Base32Table.getD (((g * 256 + b0) * 256 + b1) / 2 % 32) 0,
       Base32.Base32Table.getD
         ((((g * 256 + b0) * 256 + b1) * 256 + b2) / 16 % 32) 0,
       Base32.Base32Table.getD
         (((((g * 256 + b0) * 256 + b1) * 256 + b2) * 256 + b3) / 128 % 32) 0,
       Base32.Base32Table.getD
         (((((g * 256 + b0) * 256 + b1) * 256 + b2) * 256 + b3) / 4 % 32) 0,
       Base32.Base32Table.getD
         ((((((g * 256 + b0) * 256 + b1) * 256 + b2) * 256 + b3) * 256 + b4) /
           32 % 32) 0,
       Base32.Base32Table.getD
         ((((((g * 256 + b0) * 256 + b1) * 256 + b2) * 256 + b3) * 256 + b4) %
           32) 0]) := by
  simp [Base32.encodeLoop, Base32.emit5]

theorem base32_char_step (v : Nat) (hv : v < 32) (rest : List Nat)
    (g gs : Nat) (out : List Nat) (h8 : ¬8 ≤ gs + 5) :
    Base32.decodeLoop (Base32.Base32Table.getD v 0 :: rest) g gs out =
      Base32.decodeLoop rest (g * 32 + v) (gs + 5) out := by
  have t := base32_table_inv v hv
  have hne : ¬(Base32.Base32ReverseTable (Base32.Base32Table.getD v 0) =
      Base32.InvalidBase32Character) := by
    rw [t.1]; show ¬v = 255; omega
  have hne' : ¬(v = Base32.InvalidBase32Character) := by
    show ¬v = 255; omega
  have hm : v % 32 = v := Nat.mod_eq_of_lt hv
  simp only [Base32.decodeLoop, if_neg t.2, if_neg hne, t.1, hm, if_neg hne',
    if_neg h8]

theorem base32_char_emit (v : Nat) (hv : v < 32) (rest : List Nat)
    (g gs : Nat) (out : List Nat) (h8 : 8 ≤ gs + 5) :
    Base32.decodeLoop (Base32.Base32Table.getD v 0 :: rest) g gs out =
      Base32.decodeLoop rest (g * 32 + v) (gs + 5 - 8)
        (out ++ [(g * 32 + v) / 2 ^ (gs + 5 - 8) % 256]) := by
  have t := base32_table_inv v hv
  have hne : ¬(Base32.Base32ReverseTable (Base32.Base32Table.getD v 0) =
      Base32.InvalidBase32Character) := by
    rw [t.1]; show ¬v = 255; omega
  have hne' : ¬(v = Base32.InvalidBase32Character) := by
    show ¬v = 255; omega
  have hm : v % 32 = v := Nat.mod_eq_of_lt hv
  simp only [Base32.decodeLoop, if_neg t.2, if_neg hne, t.1, hm, if_neg hne',
    if_pos h8]

theorem base32_pad_stop (rest : List Nat) (g gs : Nat) (out : List Nat) :
    Base32.decodeLoop (61 :: rest) g gs out = (out, g, gs) := by
  simp [Base32.decodeLoop, Base32.Base32PaddingCharacter]

theorem base32_replicate_pad (k : Nat) (g gs : Nat) (out : List Nat) :
    Base32.decodeLoop (List.replicate (k + 1) 61) g gs out = (out, g, gs) := by
  rw [List.replicate_succ]
  exact base32_pad_stop _ g gs out

theorem base32_finish_zero (out : List Nat) (g gs : Nat)
    (h : g % 2 ^ gs = 0) : Base32.decodeFinish (out, g, gs) = out := by
  simp [Base32.decodeFinish, h]

set_option maxHeartbeats 2000000 in
theorem base32_rt_core : ∀ (x : List Nat), (∀ b ∈ x, b < 256) →
    ∀ g gd out,
    Base32.decodeFinish
      (Base32.decodeLoop (Base32.encodeLoop x g 0 0 []) gd 0 out) = out ++ x
  | [], _ => by
      intro g gd out
      simp [Base32.encodeLoop, Base32.decodeLoop, Base32.decodeFinish]
  | [b0], hx => by
      intro g gd out
      have hb0 : b0 < 256 := hx b0 (by simp)
      rw [base32_enc1 g b0]
      have e0 : (g * 256 + b0) / 8 % 32 = b0 / 8 := by omega
      have e1 : (g * 256 + b0) * 4 % 32 = b0 % 8 * 4 := by omega
      rw [e0, e1]
      simp only [List.cons_append, List.nil_append]
      rw [base32_char_step _ (by omega) _ gd 0 out (by omega)]
      rw [base32_char_emit _ (by omega) _ _ 5 _ (by omega)]
      rw [show (6 : Nat) = 5 + 1 from rfl, base32_replicate_pad]
      simp only [Base32.decodeFinish]
      norm_num
      split
      · first
        | (exfalso; omega)
        | (simp; omega)
      · first
        | (exfalso; omega)
        | (simp; omega)
  | [b0, b1], hx => by
      intro g gd out
      have hb0 : b0 < 256 := hx b0 (by simp)
      have hb1 : b1 < 256 := hx b1 (by simp)
      rw [base32_enc2 g b0 b1]
      have e0 : (g * 256 + b0) / 8 % 32 = b0 / 8 := by omega
      have e1 : ((g * 256 + b0) * 256 + b1) / 64 % 32 =
          b0 % 8 * 4 + b1 / 64 := by omega
      have e2 : ((g * 256 + b0) * 256 + b1) / 2 % 32 = b1 % 64 / 2 := by omega
      have e3 : ((g * 256 + b0) * 256 + b1) * 16 % 32 = b1 % 2 * 16 := by
        omega
      rw [e0, e1, e2, e3]
      simp only [List.cons_append, List.nil_append]
      rw [base32_char_step _ (by omega) _ gd 0 out (by omega)]
      rw [base32_char_emit _ (by omega) _ _ 5 _ (by omega)]
      rw [base32_char_step _ (by omega) _ _ 2 _ (by omega)]
      rw [base32_char_emit _ (by omega) _ _ 7 _ (by omega)]
      rw [show (4 : Nat) = 3 + 1 from rfl, base32_replicate_pad]
      simp only [Base32.decodeFinish]
      norm_num
      split
      · first
        | (exfalso; omega)
        | (simp; omega)
      · first
        | (exfalso; omega)
        | (simp; omega)
  | [b0, b1, b2], hx => by
      intro g gd out
      have hb0 : b0 < 256 := hx b0 (by simp)
      have hb1 : b1 < 256 := hx b1 (by simp)
      have hb2 : b2 < 256 := hx b2 (by simp)
      rw [base32_enc3 g b0 b1 b2]
      have e0 : (g * 256 + b0) / 8 % 32 = b0 / 8 := by omega
      have e1 : ((g * 256 + b0) * 256 + b1) / 64 % 32 =
          b0 % 8 * 4 + b1 / 64 := by omega
      have e2 : ((g * 256 + b0) * 256 + b1) / 2 % 32 = b1 % 64 / 2 := by omega
      have e3 : (((g * 256 + b0) * 256 + b1) * 256 + b2) / 16 % 32 =
          b1 % 2 * 16 + b2 / 16 := by omega
      have e4 : (((g * 256 + b0) * 256 + b1) * 256 + b2) * 2 % 32 =
          b2 % 16 * 2 := by omega
      rw [e0, e1, e2, e3, e4]
      simp only [List.cons_append, List.nil_append]
      rw [base32_char_step _ (by omega) _ gd 0 out (by omega)]
      rw [base32_char_emit _ (by omega) _ _ 5 _ (by omega)]
      rw [base32_char_step _ (by omega) _ _ 2 _ (by omega)]
      rw [base32_char_emit _ (by omega) _ _ 7 _ (by omega)]
      rw [base32_char_emit _ (by omega) _ _ 4 _ (by omega)]
      rw [show (3 : Nat) = 2 + 1 from rfl, base32_replicate_pad]
      simp only [Base32.decodeFinish]
      norm_num
      split
      · first
        | (exfalso; omega)
        | (simp; omega)
      · first
        | (exfalso; omega)
        | (simp; omega)
  | [b0, b1, b2, b3], hx => by
      intro g gd out
      have hb0 : b0 < 256 := hx b0 (by simp)
      have hb1 : b1 < 256 := hx b1 (by simp)
      have hb2 : b2 < 256 := hx b2 (by simp)
      have hb3 : b3 < 256 := hx b3 (by simp)
      rw [base32_enc4 g b0 b1 b2 b3]
      have e0 : (g * 256 + b0) / 8 % 32 = b0 / 8 := by omega
      have e1 : ((g * 256 + b0) * 256 + b1) / 64 % 32 =
          b0 % 8 * 4 + b1 / 64 := by omega
      have e2 : ((g * 256 + b0) * 256 + b1) / 2 % 32 = b1 % 64 / 2 := by omega
      have e3 : (((g * 256 + b0) * 256 + b1) * 256 + b2) / 16 % 32 =
          b1 % 2 * 16 + b2 / 16 := by omega
      have e4 : ((((g * 256 + b0) * 256 + b1) * 256 + b2) * 256 + b3) /
          128 % 32 = b2 % 16 * 2 + b3 / 128 := by omega
      have e5 : ((((g * 256 + b0) * 256 + b1) * 256 + b2) * 256 + b3) /
          4 % 32 = b3 % 128 / 4 := by omega
      have e6 : ((((g * 256 + b0) * 256 + b1) * 256 + b2) * 256 + b3) *
          8 % 32 = b3 % 4 * 8 := by omega
      rw [e0, e1, e2, e3, e4, e5, e6]
      simp only [List.cons_append, List.nil_append]
      rw [base32_char_step _ (by omega) _ gd 0 out (by omega)]
      rw [base32_char_emit _ (by omega) _ _ 5 _ (by omega)]
      rw [base32_char_step _ (by omega) _ _ 2 _ (by omega)]
      rw [base32_char_emit _ (by omega) _ _ 7 _ (by omega)]
      rw [base32_char_emit _ (by omega) _ _ 4 _ (by omega)]
      rw [base32_char_step _ (by omega) _ _ 1 _ (by omega)]
      rw [base32_char_emit _ (by omega) _ _ 6 _ (by omega)]
      rw [show (1 : Nat) = 0 + 1 from rfl, base32_replicate_pad]
      simp only [Base32.decodeFinish]
      norm_num
      split
      · first
        | (exfalso; omega)
        | (simp; omega)
      · first
        | (exfalso; omega)
        | (simp; omega)
  | b0 :: b1 :: b2 :: b3 :: b4 :: rest, hx => by
      intro g gd out
      have hb0 : b0 < 256 := hx b0 (by simp)
      have hb1 : b1 < 256 := hx b1 (by simp)
      have hb2 : b2 < 256 := hx b2 (by simp)
      have hb3 : b3 < 256 := hx b3 (by simp)
      have hb4 : b4 < 256 := hx b4 (by simp)
      have ih := base32_rt_core rest (fun d hd => hx d (by simp [hd]))
      rw [base32_enc5 g b0 b1 b2 b3 b4 rest []]
      rw [base32_encodeLoop_shift]
      have e0 : (g * 256 + b0) / 8 % 32 = b0 / 8 := by omega
      have e1 : ((g * 256 + b0) * 256 + b1) / 64 % 32 =
          b0 % 8 * 4 + b1 / 64 := by omega
      have e2 : ((g * 256 + b0) * 256 + b1) / 2 % 32 = b1 % 64 / 2 := by omega
      have e3 : (((g * 256 + b0) * 256 + b1) * 256 + b2) / 16 % 32 =
          b1 % 2 * 16 + b2 / 16 := by omega
      have e4 : ((((g * 256 + b0) * 256 + b1) * 256 + b2) * 256 + b3) /
          128 % 32 = b2 % 16 * 2 + b3 / 128 := by omega
      have e5 : ((((g * 256 + b0) * 256 + b1) * 256 + b2) * 256 + b3) /
          4 % 32 = b3 % 128 / 4 := by omega
      have e6 : (((((g * 256 + b0) * 256 + b1) * 256 + b2) * 256 + b3) *
          256 + b4) / 32 % 32 = b3 % 4 * 8 + b4 / 32 := by omega
      have e7 : (((((g * 256 + b0) * 256 + b1) * 256 + b2) * 256 + b3) *
          256 + b4) % 32 = b4 % 32 := by omega
      rw [e0, e1, e2, e3, e4, e5, e6, e7]
      simp only [List.cons_append, List.nil_append]
      rw [base32_char_step _ (by omega) _ gd 0 out (by omega)]
      rw [base32_char_emit _ (by omega) _ _ 5 _ (by omega)]
      rw [base32_char_step _ (by omega) _ _ 2 _ (by omega)]
      rw [base32_char_emit _ (by omega) _ _ 7 _ (by omega)]
      rw [base32_char_emit _ (by omega) _ _ 4 _ (by omega)]
      rw [base32_char_step _ (by omega) _ _ 1 _ (by omega)]
      rw [base32_char_emit _ (by omega) _ _ 6 _ (by omega)]
      rw [base32_char_emit _ (by omega) _ _ 3 _ (by omega)]
      rw [ih]
      simp
      omega

theorem base32_decode_eq (s : List Nat) (hs : s ≠ []) :
    Base32.Decode s = Base32.decodeFinish (Base32.decodeLoop s 0 0 []) := by
  have : s.length ≠ 0 := by simpa [List.length_eq_zero] using hs
  simp [Base32.Decode, this]

theorem base32_roundtrip (x : List Nat) (hx : ∀ b ∈ x, b < 256) :
    Base32.Decode (Base32.Encode x) = x := by
  by_cases hx0 : x.length = 0
  · have : x = [] := List.length_eq_zero.mp hx0
    subst this
    rfl
  · have he : Base32.Encode x = Base32.encodeLoop x 0 0 0 [] := by
      simp [Base32.Encode, hx0]
    have hmain := base32_rt_core x hx 0 0 []
    have hne : Base32.encodeLoop x 0 0 0 [] ≠ [] := by
      intro h
      rw [h] at hmain
      simp [Base32.decodeLoop, Base32.decodeFinish] at hmain
      exact hx0 (by simp [← hmain])
    rw [he, base32_decode_eq _ hne, hmain]
    simp

theorem base32_enc_shape : ∀ (x : List Nat) (g : Nat), x ≠ [] →
    (Base32.encodeLoop x g 0 0 []).length = (x.length + 4) / 5 * 8 ∧
    ∃ body, Base32.encodeLoop x g 0 0 [] =
      body ++ List.replicate (Base32.padOf (x.length % 5)) 61
  | [], _, hne => absurd rfl hne
  | [b0], g, _ => by
      rw [base32_enc1 g b0]
      refine ⟨by simp, ?_⟩
      rw [show Base32.padOf ([b0].length % 5) = 6 by simp [Base32.padOf]]
      exact ⟨_, rfl⟩
  | [b0, b1], g, _ => by
      rw [base32_enc2 g b0 b1]
      refine ⟨by simp, ?_⟩
      rw [show Base32.padOf ([b0, b1].length % 5) = 4 by simp [Base32.padOf]]
      exact ⟨_, rfl⟩
  | [b0, b1, b2], g, _ => by
      rw [base32_enc3 g b0 b1 b2]
      refine ⟨by simp, ?_⟩
      rw [show Base32.padOf ([b0, b1, b2].length % 5) = 3 by
        simp [Base32.padOf]]
      exact ⟨_, rfl⟩
  | [b0, b1, b2, b3], g, _ => by
      rw [base32_enc4 g b0 b1 b2 b3]
      refine ⟨by simp, ?_⟩
      rw [show Base32.padOf ([b0, b1, b2, b3].length % 5) = 1 by
        simp [Base32.padOf]]
      exact ⟨_, rfl⟩
  | b0 :: b1 :: b2 :: b3 :: b4 :: rest, g, _ => by
      rw [base32_enc5 g b0 b1 b2 b3 b4 rest []]
      rw [base32_encodeLoop_shift]
      by_cases hr : rest = []
      · subst hr
        refine ⟨by simp [Base32.encodeLoop], ?_⟩
        rw [show Base32.padOf ((b0 :: b1 :: b2 :: b3 :: b4 :: ([] : List Nat)).length % 5) = 0 by
          simp [Base32.padOf]]
        simp only [List.replicate]
        exact ⟨_, (List.append_nil _).symm⟩
      · obtain ⟨hlen, body, hbody⟩ := base32_enc_shape rest
          (((((g * 256 + b0) * 256 + b1) * 256 + b2) * 256 + b3) * 256 + b4) hr
        have h5 : (b0 :: b1 :: b2 :: b3 :: b4 :: rest).length =
            rest.length + 5 := by simp
        constructor
        · simp only [List.nil_append, List.length_append, hlen]
          rw [h5]
          simp only [List.length_cons, List.length_nil]
          omega
        · rw [hbody]
          rw [show Base32.padOf ((b0 :: b1 :: b2 :: b3 :: b4 :: rest).length % 5) =
            Base32.padOf (rest.length % 5) by rw [h5]; congr 1; omega]
          refine ⟨[Base32.Base32Table.getD ((g * 256 + b0) / 8 % 32) 0,
            Base32.Base32Table.getD (((g * 256 + b0) * 256 + b1) / 64 % 32) 0,
            Base32.Base32Table.getD (((g * 256 + b0) * 256 + b1) / 2 % 32) 0,
            Base32.Base32Table.getD
              ((((g * 256 + b0) * 256 + b1) * 256 + b2) / 16 % 32) 0,
            Base32.Base32Table.getD
              (((((g * 256 + b0) * 256 + b1) * 256 + b2) * 256 + b3) /
                128 % 32) 0,
            Base32.Base32Table.getD
              (((((g * 256 + b0) * 256 + b1) * 256 + b2) * 256 + b3) /
                4 % 32) 0,
            Base32.Base32Table.getD
              ((((((g * 256 + b0) * 256 + b1) * 256 + b2) * 256 + b3) * 256 +
                b4) / 32 % 32) 0,
            Base32.Base32Table.getD
              ((((((g * 256 + b0) * 256 + b1) * 256 + b2) * 256 + b3) * 256 +
                b4) % 32) 0] ++ body, ?_⟩
          simp

/-! ### Base58: digit-accumulator algebra -/

theorem base58_chain_len (m b : Nat) :
    ∀ (ds : List Nat) (c : Nat), (chainMulAdd m b c ds).1.length = ds.length
  | [], _ => rfl
  | d :: ds, c => by
      simp [chainMulAdd, base58_chain_len m b ds]

theorem base58_chain_val (m b : Nat) :
    ∀ (ds : List Nat) (c : Nat),
      Nat.ofDigits b (chainMulAdd m b c ds).1 +
        (chainMulAdd m b c ds).2 * b ^ ds.length =
        m * Nat.ofDigits b ds + c
  | [], c => by simp [chainMulAdd, Nat.ofDigits_nil]
  | d :: ds, c => by
      have IH := base58_chain_val m b ds ((c + d * m) / b)
      have key := Nat.mod_add_div (c + d * m) b
      simp only [chainMulAdd, Nat.ofDigits_cons, List.length_cons]
      zify at IH key ⊢
      linear_combination (b : ℤ) * IH + key

theorem base58_mulAdd_nil (m b c : Nat) :
    mulAddDigits m b c [] = Nat.digits b c := by
  simp [mulAddDigits, chainMulAdd]

theorem base58_mulAdd_cons (m b c d : Nat) (ds : List Nat) :
    mulAddDigits m b c (d :: ds) =
      (c + d * m) % b :: mulAddDigits m b ((c + d * m) / b) ds := by
  simp [mulAddDigits, chainMulAdd]

theorem base58_mulAdd_val (m b c : Nat) (ds : List Nat) :
    Nat.ofDigits b (mulAddDigits m b c ds) = m * Nat.ofDigits b ds + c := by
  have h := base58_chain_val m b ds c
  have hl := base58_chain_len m b ds c
  rw [mulAddDigits, Nat.ofDigits_append, Nat.ofDigits_digits,
    base58_chain_len, Nat.mul_comm]
  exact h

theorem base58_chain_mem (m b : Nat) (hb : 0 < b) :
    ∀ (ds : List Nat) (c : Nat), ∀ e ∈ (chainMulAdd m b c ds).1, e < b
  | [], _ => by simp [chainMulAdd]
  | d :: ds, c => by
      intro e he
      simp only [chainMulAdd, List.mem_cons] at he
      rcases he with rfl | he
      · exact Nat.mod_lt _ hb
      · exact base58_chain_mem m b hb ds ((c + d * m) / b) e he

theorem base58_mulAdd_lt (m b : Nat) (hb : 1 < b) (c : Nat) (ds : List Nat) :
    ∀ e ∈ mulAddDigits m b c ds, e < b := by
  intro e he
  rw [mulAddDigits, List.mem_append] at he
  rcases he with he | he
  · exact base58_chain_mem m b (by omega) ds c e he
  · exact Nat.digits_lt_base hb he

theorem base58_digits_last_ne (b n : Nat) :
    (Nat.digits b n).getLast? ≠ some 0 := by
  rcases Nat.eq_zero_or_pos n with rfl | hn
  · simp
  · rw [List.getLast?_eq_getLast_of_ne_nil
      (Nat.digits_ne_nil_iff_ne_zero.mpr (by omega))]
    intro h
    exact Nat.getLast_digit_ne_zero b (by omega : n ≠ 0) (Option.some.inj h)

theorem base58_mulAdd_last (m b : Nat) (hb : 1 < b) (hm : 0 < m) :
    ∀ (ds : List Nat) (c : Nat), ds.getLast? ≠ some 0 →
      (mulAddDigits m b c ds).getLast? ≠ some 0
  | [], c, _ => by
      rw [base58_mulAdd_nil]
      exact base58_digits_last_ne b c
  | d :: ds, c, h => by
      rw [base58_mulAdd_cons]
      have hds : ds.getLast? ≠ some 0 := by
        cases ds with
        | nil => simp
        | cons x xs => rw [← List.getLast?_cons_cons (a := d)]; exact h
      have hrec := base58_mulAdd_last m b hb hm ds ((c + d * m) / b) hds
      cases hT : mulAddDigits m b ((c + d * m) / b) ds with
      | nil =>
          have hds0 : ds = [] := by
            have := base58_chain_len m b ds ((c + d * m) / b)
            have hlen : (mulAddDigits m b ((c + d * m) / b) ds).length = 0 := by
              rw [hT]; rfl
            rw [mulAddDigits, List.length_append] at hlen
            exact List.length_eq_zero.mp (by omega)
          subst hds0
          have hd0 : d ≠ 0 := by
            simp only [List.getLast?_singleton] at h
            intro hd; exact h (by rw [hd])
          have hc' : (c + d * m) / b = 0 := by
            have := hT
            rw [base58_mulAdd_nil] at this
            exact Nat.digits_eq_nil_iff_eq_zero.mp this
          have hlt : c + d * m < b := (Nat.div_eq_zero_iff (by omega)).mp hc'
          rw [List.getLast?_singleton]
          intro hcon
          have : c + d * m = 0 := by
            rw [Nat.mod_eq_of_lt hlt] at hcon
            exact Option.some.inj hcon
          have : 1 ≤ d * m := Nat.one_le_iff_ne_zero.mpr
            (by intro hz; rcases Nat.mul_eq_zero.mp hz with h1 | h1 <;> omega)
          omega
      | cons t T =>
          rw [List.getLast?_cons_cons, ← hT]
          exact hrec

theorem base58_mulAdd_canon (m b : Nat) (hb : 1 < b) (hm : 0 < m)
    (N c : Nat) :
    mulAddDigits m b c (Nat.digits b N) = Nat.digits b (m * N + c) := by
  have hval : Nat.ofDigits b (mulAddDigits m b c (Nat.digits b N)) =
      m * N + c := by
    rw [base58_mulAdd_val, Nat.ofDigits_digits]
  have hlt := base58_mulAdd_lt m b hb c (Nat.digits b N)
  have hlast := base58_mulAdd_last m b hb hm (Nat.digits b N) c
    (base58_digits_last_ne b N)
  have := Nat.digits_ofDigits b hb (mulAddDigits m b c (Nat.digits b N))
    hlt ?_
  · rw [hval] at this
    exact this.symm
  · intro h
    intro hcon
    exact hlast (by rw [List.getLast?_eq_getLast_of_ne_nil h, hcon])

theorem base58_digitsLen_le (b n k : Nat) (hb : 1 < b) (h : n < b ^ k) :
    (Nat.digits b n).length ≤ k := by
  rcases Nat.eq_zero_or_pos n with rfl | hn
  · simp
  · rw [Nat.digits_len b n hb (by omega)]
    have := Nat.log_lt_of_lt_pow (by omega : n ≠ 0) h
    omega

theorem base58_encLoop_walk :
    ∀ (D P Z W : List Nat) (c zeros : Nat),
      Base58.encLoop (P ++ D ++ Z ++ W) (zeros + P.length + D.length) c
          (zeros + P.length) zeros
          (zeros + P.length + D.length + Z.length) =
        Base58.encLoop (P ++ (chainMulAdd 256 58 c D).1 ++ Z ++ W)
          (zeros + P.length + D.length) (chainMulAdd 256 58 c D).2
          (zeros + P.length + D.length) zeros
          (zeros + P.length + D.length + Z.length) := by
  intro D
  induction D with
  | nil => intro P Z W c zeros; simp [chainMulAdd]
  | cons d D' ih =>
      intro P Z W c zeros
      have h1 : zeros + P.length <
          zeros + P.length + (d :: D').length + Z.length := by
        simp only [List.length_cons]; omega
      have h2 : ¬(zeros + P.length = zeros + P.length + (d :: D').length) := by
        simp only [List.length_cons]; omega
      conv_lhs => rw [Base58.encLoop]
      rw [dif_pos h1, if_neg h2]
      have hidx : zeros + P.length - zeros = P.length := by omega
      have hre : P ++ (d :: D') ++ Z ++ W = P ++ (d :: (D' ++ Z ++ W)) := by
        simp
      rw [hidx, hre]
      have hget : (P ++ (d :: (D' ++ Z ++ W))).getD P.length 0 = d := by
        rw [List.getD_append_right _ _ _ _ (le_refl _)]
        simp
      have hset : (P ++ (d :: (D' ++ Z ++ W))).set P.length
          ((c + d * 256) % 58) =
          (P ++ [(c + d * 256) % 58]) ++ D' ++ Z ++ W := by
        rw [List.set_append, if_neg (lt_irrefl _)]
        simp
      rw [hget]
      simp only []
      rw [hset]
      have e1 : zeros + P.length + (d :: D').length =
          zeros + (P ++ [(c + d * 256) % 58]).length + D'.length := by
        simp only [List.length_cons, List.length_append,
          List.length_nil]; omega
      have e2 : zeros + P.length + 1 =
          zeros + (P ++ [(c + d * 256) % 58]).length := by
        simp only [List.length_cons, List.length_append, List.length_nil]; omega
      rw [e1, e2, ih (P ++ [(c + d * 256) % 58]) Z W ((c + d * 256) / 58) zeros]
      simp only [chainMulAdd, List.append_assoc, List.singleton_append]

theorem base58_encLoop_ext :
    ∀ (Z P W : List Nat) (c zeros : Nat), (∀ z ∈ Z, z = 0) →
      (Nat.digits 58 c).length ≤ Z.length →
      Base58.encLoop (P ++ Z ++ W) (zeros + P.length) c (zeros + P.length)
          zeros (zeros + P.length + Z.length) =
        ((P ++ Nat.digits 58 c) ++ Z.drop (Nat.digits 58 c).length ++ W,
          zeros + P.length + (Nat.digits 58 c).length, 0) := by
  intro Z
  induction Z with
  | nil =>
      intro P W c zeros _ hfit
      have hc : c = 0 := Nat.digits_eq_nil_iff_eq_zero.mp
        (List.length_eq_zero.mp (Nat.le_zero.mp hfit))
      subst hc
      rw [Base58.encLoop]
      rw [dif_neg (by simp)]
      simp
  | cons z Z' ih =>
      intro P W c zeros hz hfit
      have hz0 : z = 0 := hz z (by simp)
      subst hz0
      have h1 : zeros + P.length <
          zeros + P.length + (0 :: Z').length + 0 := by
        simp only [List.length_cons]; omega
      rcases Nat.eq_zero_or_pos c with rfl | hc
      · rw [Base58.encLoop]
        rw [dif_pos (by simp only [List.length_cons]; omega), if_pos rfl,
          if_pos rfl]
        simp
      · rw [Base58.encLoop]
        rw [dif_pos (by simp only [List.length_cons]; omega), if_pos rfl,
          if_neg (by omega)]
        have hidx : zeros + P.length - zeros = P.length := by omega
        have hre : P ++ (0 :: Z') ++ W = P ++ (0 :: (Z' ++ W)) := by simp
        rw [hidx, hre]
        have hget : (P ++ (0 :: (Z' ++ W))).getD P.length 0 = 0 := by
          rw [List.getD_append_right _ _ _ _ (le_refl _)]
          simp
        rw [hget]
        simp only [Nat.mul_zero, Nat.zero_mul, Nat.add_zero]
        have hset : (P ++ (0 :: (Z' ++ W))).set P.length (c % 58) =
            (P ++ [c % 58]) ++ Z' ++ W := by
          rw [List.set_append, if_neg (lt_irrefl _)]
          simp
        rw [hset]
        have hdig : Nat.digits 58 c = c % 58 :: Nat.digits 58 (c / 58) :=
          Nat.digits_def' (by omega) hc
        have hfit' : (Nat.digits 58 (c / 58)).length ≤ Z'.length := by
          rw [hdig] at hfit
          simp only [List.length_cons] at hfit
          omega
        have e2 : zeros + P.length + 1 =
            zeros + (P ++ [c % 58]).length := by
          simp only [List.length_cons, List.length_append, List.length_nil]
          omega
        have e3 : zeros + P.length + (0 :: Z').length =
            zeros + (P ++ [c % 58]).length + Z'.length := by
          simp only [List.length_cons, List.length_append, List.length_nil]
          omega
        rw [e2, e3, ih (P ++ [c % 58]) W (c / 58) zeros
          (fun a ha => hz a (by simp [ha])) hfit']
        rw [hdig]
        simp only [List.length_cons, List.drop_succ_cons, List.append_assoc,
          List.singleton_append]
        have e4 : zeros + (P ++ [c % 58]).length +
            (Nat.digits 58 (c / 58)).length =
            zeros + P.length + ((Nat.digits 58 (c / 58)).length + 1) := by
          simp only [List.length_append, List.length_cons, List.length_nil]
          omega
        rw [e4]

theorem base58_encLoop_digits (N c zeros cap : Nat) (W : List Nat)
    (hfit : (Nat.digits 58 (256 * N + c)).length ≤ cap) :
    Base58.encLoop
        (Nat.digits 58 N ++
          List.replicate (cap - (Nat.digits 58 N).length) 0 ++ W)
        (zeros + (Nat.digits 58 N).length) c zeros zeros (zeros + cap) =
      (Nat.digits 58 (256 * N + c) ++
        List.replicate (cap - (Nat.digits 58 (256 * N + c)).length) 0 ++ W,
        zeros + (Nat.digits 58 (256 * N + c)).length, 0) := by
  have hND : (Nat.digits 58 N).length ≤
      (Nat.digits 58 (256 * N + c)).length :=
    Nat.le_digits_len_le 58 N (256 * N + c) (by omega)
  have hDcap : (Nat.digits 58 N).length ≤ cap := le_trans hND hfit
  have hcanon := base58_mulAdd_canon 256 58 (by omega) (by omega) N c
  have hclen := base58_chain_len 256 58 (Nat.digits 58 N) c
  have hlen : (chainMulAdd 256 58 c (Nat.digits 58 N)).1.length +
      (Nat.digits 58 (chainMulAdd 256 58 c (Nat.digits 58 N)).2).length =
      (Nat.digits 58 (256 * N + c)).length := by
    rw [← hcanon, mulAddDigits, List.length_append]
  have hwalk := base58_encLoop_walk (Nat.digits 58 N) []
    (List.replicate (cap - (Nat.digits 58 N).length) 0) W c zeros
  simp only [List.nil_append, List.length_nil, Nat.add_zero,
    List.length_replicate] at hwalk
  have hml : zeros + (Nat.digits 58 N).length +
      (cap - (Nat.digits 58 N).length) = zeros + cap := by omega
  rw [hml] at hwalk
  rw [hwalk]
  have hfit2 : (Nat.digits 58
      (chainMulAdd 256 58 c (Nat.digits 58 N)).2).length ≤
      (List.replicate (cap - (Nat.digits 58 N).length) 0).length := by
    rw [List.length_replicate]
    omega
  have hext := base58_encLoop_ext
    (List.replicate (cap - (Nat.digits 58 N).length) 0)
    (chainMulAdd 256 58 c (Nat.digits 58 N)).1 W
    (chainMulAdd 256 58 c (Nat.digits 58 N)).2 zeros
    (fun z hz => List.eq_of_mem_replicate hz) hfit2
  rw [hclen, List.length_replicate, hml] at hext
  rw [hext]
  have hjoin : (chainMulAdd 256 58 c (Nat.digits 58 N)).1 ++
      Nat.digits 58 (chainMulAdd 256 58 c (Nat.digits 58 N)).2 =
      Nat.digits 58 (256 * N + c) := by
    rw [← hcanon, mulAddDigits]
  have hdrop : List.drop
      (Nat.digits 58 (chainMulAdd 256 58 c (Nat.digits 58 N)).2).length
      (List.replicate (cap - (Nat.digits 58 N).length) 0) =
      List.replicate (cap - (Nat.digits 58 (256 * N + c)).length) 0 := by
    rw [List.drop_replicate]
    congr 1
    omega
  rw [hjoin, hdrop]
  have : zeros + (Nat.digits 58 N).length +
      (Nat.digits 58 (chainMulAdd 256 58 c (Nat.digits 58 N)).2).length =
      zeros + (Nat.digits 58 (256 * N + c)).length := by omega
  rw [this]

theorem base58_foldl_mono : ∀ (bs : List Nat) (a : Nat),
    a ≤ bs.foldl (fun x b => x * 256 + b) a
  | [], _ => le_refl _
  | b :: bs, a => le_trans (by omega) (base58_foldl_mono bs (a * 256 + b))

theorem base58_encodeCore_spec :
    ∀ (bs : List Nat) (N zeros cap : Nat) (W : List Nat),
      (Nat.digits 58 (bs.foldl (fun a b => a * 256 + b) N)).length ≤ cap →
      Base58.encodeCore bs
          (Nat.digits 58 N ++
            List.replicate (cap - (Nat.digits 58 N).length) 0 ++ W)
          (zeros + (Nat.digits 58 N).length) zeros (zeros + cap) =
        some (Nat.digits 58 (bs.foldl (fun a b => a * 256 + b) N) ++
          List.replicate (cap -
            (Nat.digits 58 (bs.foldl (fun a b => a * 256 + b) N)).length)
            0 ++ W,
          zeros +
            (Nat.digits 58 (bs.foldl (fun a b => a * 256 + b) N)).length)
  | [], N, zeros, cap, W, _ => by
      simp [Base58.encodeCore]
  | b :: bs, N, zeros, cap, W, hfit => by
      simp only [List.foldl_cons] at hfit
      have hmono := base58_foldl_mono bs (N * 256 + b)
      have hfit1 : (Nat.digits 58 (256 * N + b)).length ≤ cap := by
        have h1 : 256 * N + b ≤ bs.foldl (fun x c => x * 256 + c)
            (N * 256 + b) := by omega
        exact le_trans (Nat.le_digits_len_le 58 _ _ h1) hfit
      have hd := base58_encLoop_digits N b zeros cap W hfit1
      simp only [Base58.encodeCore, hd]
      have hc : 256 * N + b = N * 256 + b := by ring
      rw [hc]
      simp only [Nat.lt_irrefl, if_false]
      have := base58_encodeCore_spec bs (N * 256 + b) zeros cap W hfit
      simp only [List.foldl_cons]
      exact this

theorem base58_foldl_lt : ∀ (bs : List Nat) (a : Nat),
    (∀ b ∈ bs, b < 256) →
    bs.foldl (fun x b => x * 256 + b) a < (a + 1) * 256 ^ bs.length
  | [], a, _ => by simp
  | b :: bs, a, h => by
      simp only [List.foldl_cons, List.length_cons]
      have hb : b < 256 := h b (by simp)
      have ih := base58_foldl_lt bs (a * 256 + b)
        (fun c hc => h c (by simp [hc]))
      have hstep : (a * 256 + b + 1) * 256 ^ bs.length ≤
          (a + 1) * 256 ^ (bs.length + 1) := by
        rw [Nat.pow_succ]
        have : a * 256 + b + 1 ≤ (a + 1) * 256 := by omega
        calc (a * 256 + b + 1) * 256 ^ bs.length
            ≤ (a + 1) * 256 * 256 ^ bs.length :=
              Nat.mul_le_mul_right _ this
          _ = (a + 1) * (256 ^ bs.length * 256) := by ring
      omega

theorem base58_pow_transfer (m cap : Nat) (h : 137 * m ≤ 100 * cap) :
    (256 : Nat) ^ m ≤ 58 ^ cap := by
  have hbig : (256 : Nat) ^ 100 ≤ 58 ^ 137 := by decide
  rw [← Nat.pow_le_pow_iff_left (by omega : (100 : Nat) ≠ 0)]
  calc (256 ^ m) ^ 100 = (256 ^ 100) ^ m := by
        rw [← Nat.pow_mul, ← Nat.pow_mul, Nat.mul_comm]
    _ ≤ (58 ^ 137) ^ m := Nat.pow_le_pow_left hbig m
    _ = 58 ^ (137 * m) := by rw [← Nat.pow_mul]
    _ ≤ 58 ^ (100 * cap) := Nat.pow_le_pow_right (by omega) h
    _ = (58 ^ cap) ^ 100 := by rw [← Nat.pow_mul, Nat.mul_comm]

theorem base58_substLoop_spec : ∀ (R P : List Nat),
    Base58.substLoop (P ++ R) P.length (P.length + R.length) =
      P ++ R.map (fun d => Base58.Base58Table.getD d 0)
  | [], P => by
      rw [Base58.substLoop]
      rw [dif_pos (by simp)]
      rw [List.append_nil]
      rw [List.getD_eq_default _ _ (le_refl _),
        List.set_eq_of_length_le (le_refl _)]
      rw [Base58.substLoop]
      rw [dif_neg (by simp)]
      simp
  | r :: R', P => by
      rw [Base58.substLoop]
      rw [dif_pos (by simp only [List.length_cons]; omega)]
      have hget : (P ++ r :: R').getD P.length 0 = r := by
        rw [List.getD_append_right _ _ _ _ (le_refl _)]
        simp
      have hset : (P ++ r :: R').set P.length
          (Base58.Base58Table.getD ((P ++ r :: R').getD P.length 0) 0) =
          (P ++ [Base58.Base58Table.getD r 0]) ++ R' := by
        rw [hget, List.set_append, if_neg (lt_irrefl _)]
        simp
      rw [hset]
      have e1 : P.length + 1 =
          (P ++ [Base58.Base58Table.getD r 0]).length := by simp
      have e2 : P.length + (r :: R').length =
          (P ++ [Base58.Base58Table.getD r 0]).length + R'.length := by
        simp only [List.length_cons, List.length_append, List.length_nil]
        omega
      rw [e1, e2, base58_substLoop_spec R' (P ++ [Base58.Base58Table.getD r 0])]
      simp

theorem base58_encode_eq (x : List Nat) (hx : ∀ b ∈ x, b < 256) :
    Base58.Encode x =
      List.replicate (x.takeWhile (fun b => b == 0)).length 49 ++
        ((Nat.digits 58
            (beVal (x.drop (x.takeWhile (fun b => b == 0)).length))).map
          (fun d => Base58.Base58Table.getD d 0)).reverse := by
  rcases List.eq_nil_or_concat x with rfl | hne
  · simp [Base58.Encode, beVal]
  have hx0 : ¬ x.length = 0 := by
    rcases hne with ⟨l, a, rfl⟩
    simp
  have hzn : (x.takeWhile (fun b => b == 0)).length ≤ x.length :=
    (List.takeWhile_prefix _).length_le
  have hbslen : (x.drop (x.takeWhile (fun b => b == 0)).length).length =
      x.length - (x.takeWhile (fun b => b == 0)).length := by simp
  have hfit : (Nat.digits 58
      ((x.drop (x.takeWhile (fun b => b == 0)).length).foldl
        (fun a b => a * 256 + b) 0)).length ≤
      x.length * 137 / 100 + 1 - (x.takeWhile (fun b => b == 0)).length := by
    apply base58_digitsLen_le _ _ _ (by omega)
    have h1 := base58_foldl_lt (x.drop (x.takeWhile (fun b => b == 0)).length)
      0 (fun b hb => hx b (List.mem_of_mem_drop hb))
    have h2 : (256:Nat) ^
        (x.drop (x.takeWhile (fun b => b == 0)).length).length ≤
        58 ^ (x.length * 137 / 100 + 1 -
          (x.takeWhile (fun b => b == 0)).length) :=
      base58_pow_transfer _ _ (by rw [hbslen]; omega)
    calc (x.drop (x.takeWhile (fun b => b == 0)).length).foldl
          (fun a b => a * 256 + b) 0
        < 1 * 256 ^ (x.drop (x.takeWhile (fun b => b == 0)).length).length :=
          by simpa using h1
      _ ≤ 58 ^ (x.length * 137 / 100 + 1 -
          (x.takeWhile (fun b => b == 0)).length) := by simpa using h2
  have hcore := base58_encodeCore_spec
    (x.drop (x.takeWhile (fun b => b == 0)).length) 0
    (x.takeWhile (fun b => b == 0)).length
    (x.length * 137 / 100 + 1 - (x.takeWhile (fun b => b == 0)).length)
    (List.replicate (x.takeWhile (fun b => b == 0)).length 0)
    (by simpa using hfit)
  simp only [Nat.digits_zero, List.nil_append, List.length_nil,
    Nat.sub_zero, Nat.add_zero] at hcore
  rw [← List.replicate_add] at hcore
  have e1 : x.length * 137 / 100 + 1 -
      (x.takeWhile (fun b => b == 0)).length +
      (x.takeWhile (fun b => b == 0)).length =
      x.length * 137 / 100 + 1 := by omega
  have e2 : (x.takeWhile (fun b => b == 0)).length +
      (x.length * 137 / 100 + 1 -
        (x.takeWhile (fun b => b == 0)).length) =
      x.length * 137 / 100 + 1 := by omega
  rw [e1, e2] at hcore
  simp only [Base58.Encode, if_neg hx0]
  rw [hcore]
  simp only []
  rw [beVal]
  have htake : (Nat.digits 58
        ((x.drop (x.takeWhile (fun b => b == 0)).length).foldl
          (fun a b => a * 256 + b) 0) ++
      List.replicate (x.length * 137 / 100 + 1 -
        (x.takeWhile (fun b => b == 0)).length -
        (Nat.digits 58
          ((x.drop (x.takeWhile (fun b => b == 0)).length).foldl
            (fun a b => a * 256 + b) 0)).length) 0 ++
      List.replicate (x.takeWhile (fun b => b == 0)).length 0).take
        ((x.takeWhile (fun b => b == 0)).length +
          (Nat.digits 58
            ((x.drop (x.takeWhile (fun b => b == 0)).length).foldl
              (fun a b => a * 256 + b) 0)).length) =
      Nat.digits 58
        ((x.drop (x.takeWhile (fun b => b == 0)).length).foldl
          (fun a b => a * 256 + b) 0) ++
        List.replicate (x.takeWhile (fun b => b == 0)).length 0 := by
    rw [List.append_assoc, ← List.replicate_add]
    rw [show (x.takeWhile (fun b => b == 0)).length +
        (Nat.digits 58
          ((x.drop (x.takeWhile (fun b => b == 0)).length).foldl
            (fun a b => a * 256 + b) 0)).length =
        (Nat.digits 58
          ((x.drop (x.takeWhile (fun b => b == 0)).length).foldl
            (fun a b => a * 256 + b) 0)).length +
        (x.takeWhile (fun b => b == 0)).length from by omega]
    rw [List.take_append, List.take_replicate]
    congr 2
    omega
  rw [htake]
  have hsub := base58_substLoop_spec
    (Nat.digits 58
        ((x.drop (x.takeWhile (fun b => b == 0)).length).foldl
          (fun a b => a * 256 + b) 0) ++
      List.replicate (x.takeWhile (fun b => b == 0)).length 0) []
  simp only [List.nil_append, List.length_nil, Nat.zero_add,
    List.length_append, List.length_replicate] at hsub
  rw [show (x.takeWhile (fun b => b == 0)).length +
      (Nat.digits 58
        ((x.drop (x.takeWhile (fun b => b == 0)).length).foldl
          (fun a b => a * 256 + b) 0)).length =
      (Nat.digits 58
        ((x.drop (x.takeWhile (fun b => b == 0)).length).foldl
          (fun a b => a * 256 + b) 0)).length +
      (x.takeWhile (fun b => b == 0)).length from by omega]
  rw [hsub]
  rw [List.map_append, List.map_replicate]
  rw [show Base58.Base58Table.getD 0 0 = 49 from rfl]
  rw [List.reverse_append, List.reverse_replicate]

theorem base58_decLoop_walk :
    ∀ (D P Z W : List Nat) (c : Nat),
      Base58.decLoop (P ++ D ++ Z ++ W) (P.length + D.length) c
          P.length (P.length + D.length + Z.length) =
        Base58.decLoop (P ++ (chainMulAdd 58 256 c D).1 ++ Z ++ W)
          (P.length + D.length) (chainMulAdd 58 256 c D).2
          (P.length + D.length) (P.length + D.length + Z.length) := by
  intro D
  induction D with
  | nil => intro P Z W c; simp [chainMulAdd]
  | cons d D' ih =>
      intro P Z W c
      have h1 : P.length < P.length + (d :: D').length + Z.length := by
        simp only [List.length_cons]; omega
      have h2 : ¬(P.length = P.length + (d :: D').length) := by
        simp only [List.length_cons]; omega
      conv_lhs => rw [Base58.decLoop]
      rw [dif_pos h1, if_neg h2]
      have hre : P ++ (d :: D') ++ Z ++ W = P ++ (d :: (D' ++ Z ++ W)) := by
        simp
      rw [hre]
      have hget : (P ++ (d :: (D' ++ Z ++ W))).getD P.length 0 = d := by
        rw [List.getD_append_right _ _ _ _ (le_refl _)]
        simp
      rw [hget]
      simp only []
      rw [show c + 58 * d = c + d * 58 from by ring]
      have hset : (P ++ (d :: (D' ++ Z ++ W))).set P.length
          ((c + d * 58) % 256) =
          (P ++ [(c + d * 58) % 256]) ++ D' ++ Z ++ W := by
        rw [List.set_append, if_neg (lt_irrefl _)]
        simp
      rw [hset]
      have e1 : P.length + (d :: D').length =
          (P ++ [(c + d * 58) % 256]).length + D'.length := by
        simp only [List.length_cons, List.length_append,
          List.length_nil]; omega
      have e2 : P.length + 1 =
          (P ++ [(c + d * 58) % 256]).length := by
        simp only [List.length_cons, List.length_append,
          List.length_nil]
      rw [e1, e2, ih (P ++ [(c + d * 58) % 256]) Z W ((c + d * 58) / 256)]
      simp only [chainMulAdd, List.append_assoc, List.singleton_append]

theorem base58_decLoop_ext :
    ∀ (Z P W : List Nat) (c : Nat), (∀ z ∈ Z, z = 0) →
      (Nat.digits 256 c).length ≤ Z.length →
      Base58.decLoop (P ++ Z ++ W) P.length c P.length
          (P.length + Z.length) =
        ((P ++ Nat.digits 256 c) ++ Z.drop (Nat.digits 256 c).length ++ W,
          P.length + (Nat.digits 256 c).length, 0) := by
  intro Z
  induction Z with
  | nil =>
      intro P W c _ hfit
      have hc : c = 0 := Nat.digits_eq_nil_iff_eq_zero.mp
        (List.length_eq_zero.mp (Nat.le_zero.mp hfit))
      subst hc
      rw [Base58.decLoop]
      rw [dif_neg (by simp)]
      simp
  | cons z Z' ih =>
      intro P W c hz hfit
      have hz0 : z = 0 := hz z (by simp)
      subst hz0
      rcases Nat.eq_zero_or_pos c with rfl | hc
      · rw [Base58.decLoop]
        rw [dif_pos (by simp only [List.length_cons]; omega), if_pos rfl,
          if_pos rfl]
        simp
      · rw [Base58.decLoop]
        rw [dif_pos (by simp only [List.length_cons]; omega), if_pos rfl,
          if_neg (by omega)]
        have hre : P ++ (0 :: Z') ++ W = P ++ (0 :: (Z' ++ W)) := by simp
        rw [hre]
        have hget : (P ++ (0 :: (Z' ++ W))).getD P.length 0 = 0 := by
          rw [List.getD_append_right _ _ _ _ (le_refl _)]
          simp
        rw [hget]
        simp only [Nat.mul_zero, Nat.zero_mul, Nat.add_zero]
        have hset : (P ++ (0 :: (Z' ++ W))).set P.length (c % 256) =
            (P ++ [c % 256]) ++ Z' ++ W := by
          rw [List.set_append, if_neg (lt_irrefl _)]
          simp
        rw [hset]
        have hdig : Nat.digits 256 c = c % 256 :: Nat.digits 256 (c / 256) :=
          Nat.digits_def' (by omega) hc
        have hfit' : (Nat.digits 256 (c / 256)).length ≤ Z'.length := by
          rw [hdig] at hfit
          simp only [List.length_cons] at hfit
          omega
        have e2 : P.length + 1 = (P ++ [c % 256]).length := by
          simp only [List.length_cons, List.length_append, List.length_nil]
        have e3 : P.length + (0 :: Z').length =
            (P ++ [c % 256]).length + Z'.length := by
          simp only [List.length_cons, List.length_append, List.length_nil]
          omega
        rw [e2, e3, ih (P ++ [c % 256]) W (c / 256)
          (fun a ha => hz a (by simp [ha])) hfit']
        rw [hdig]
        simp only [List.length_cons, List.drop_succ_cons, List.append_assoc,
          List.singleton_append]
        have e4 : (P ++ [c % 256]).length +
            (Nat.digits 256 (c / 256)).length =
            P.length + ((Nat.digits 256 (c / 256)).length + 1) := by
          simp only [List.length_append, List.length_cons, List.length_nil]
          omega
        rw [e4]

theorem base58_decLoop_digits (N c cap : Nat) (W : List Nat)
    (hfit : (Nat.digits 256 (58 * N + c)).length ≤ cap) :
    Base58.decLoop
        (Nat.digits 256 N ++
          List.replicate (cap - (Nat.digits 256 N).length) 0 ++ W)
        (Nat.digits 256 N).length c 0 cap =
      (Nat.digits 256 (58 * N + c) ++
        List.replicate (cap - (Nat.digits 256 (58 * N + c)).length) 0 ++ W,
        (Nat.digits 256 (58 * N + c)).length, 0) := by
  have hND : (Nat.digits 256 N).length ≤
      (Nat.digits 256 (58 * N + c)).length :=
    Nat.le_digits_len_le 256 N (58 * N + c) (by omega)
  have hDcap : (Nat.digits 256 N).length ≤ cap := le_trans hND hfit
  have hcanon := base58_mulAdd_canon 58 256 (by omega) (by omega) N c
  have hclen := base58_chain_len 58 256 (Nat.digits 256 N) c
  have hlen : (chainMulAdd 58 256 c (Nat.digits 256 N)).1.length +
      (Nat.digits 256 (chainMulAdd 58 256 c (Nat.digits 256 N)).2).length =
      (Nat.digits 256 (58 * N + c)).length := by
    rw [← hcanon, mulAddDigits, List.length_append]
  have hwalk := base58_decLoop_walk (Nat.digits 256 N) []
    (List.replicate (cap - (Nat.digits 256 N).length) 0) W c
  simp only [List.nil_append, List.length_nil, Nat.zero_add,
    List.length_replicate] at hwalk
  have hml : (Nat.digits 256 N).length +
      (cap - (Nat.digits 256 N).length) = cap := by omega
  rw [hml] at hwalk
  rw [hwalk]
  have hfit2 : (Nat.digits 256
      (chainMulAdd 58 256 c (Nat.digits 256 N)).2).length ≤
      (List.replicate (cap - (Nat.digits 256 N).length) 0).length := by
    rw [List.length_replicate]
    omega
  have hext := base58_decLoop_ext
    (List.replicate (cap - (Nat.digits 256 N).length) 0)
    (chainMulAdd 58 256 c (Nat.digits 256 N)).1 W
    (chainMulAdd 58 256 c (Nat.digits 256 N)).2
    (fun z hz => List.eq_of_mem_replicate hz) hfit2
  rw [hclen, List.length_replicate, hml] at hext
  rw [hext]
  have hjoin : (chainMulAdd 58 256 c (Nat.digits 256 N)).1 ++
      Nat.digits 256 (chainMulAdd 58 256 c (Nat.digits 256 N)).2 =
      Nat.digits 256 (58 * N + c) := by
    rw [← hcanon, mulAddDigits]
  have hdrop : List.drop
      (Nat.digits 256 (chainMulAdd 58 256 c (Nat.digits 256 N)).2).length
      (List.replicate (cap - (Nat.digits 256 N).length) 0) =
      List.replicate (cap - (Nat.digits 256 (58 * N + c)).length) 0 := by
    rw [List.drop_replicate]
    congr 1
    omega
  rw [hjoin, hdrop]
  have : (Nat.digits 256 N).length +
      (Nat.digits 256 (chainMulAdd 58 256 c (Nat.digits 256 N)).2).length =
      (Nat.digits 256 (58 * N + c)).length := by omega
  rw [this]

theorem base58_foldl58_mono : ∀ (cs : List Nat) (a : Nat),
    a ≤ cs.foldl (fun x c => x * 58 + Base58.Base58ReverseTable c) a
  | [], _ => le_refl _
  | c :: cs, a => le_trans (by omega)
      (base58_foldl58_mono cs (a * 58 + Base58.Base58ReverseTable c))

theorem base58_decodeCore_spec :
    ∀ (cs : List Nat) (M cap : Nat),
      (∀ c ∈ cs, Base58.IsSpace c = false ∧
        Base58.Base58ReverseTable c ≠ 255) →
      (Nat.digits 256 (cs.foldl
        (fun a c => a * 58 + Base58.Base58ReverseTable c) M)).length ≤ cap →
      Base58.decodeCore cs
          (Nat.digits 256 M ++
            List.replicate (cap - (Nat.digits 256 M).length) 0)
          (Nat.digits 256 M).length cap =
        some (Nat.digits 256 (cs.foldl
            (fun a c => a * 58 + Base58.Base58ReverseTable c) M) ++
          List.replicate (cap - (Nat.digits 256 (cs.foldl
            (fun a c => a * 58 + Base58.Base58ReverseTable c) M)).length) 0,
          (Nat.digits 256 (cs.foldl
            (fun a c => a * 58 + Base58.Base58ReverseTable c) M)).length)
  | [], M, cap, _, _ => by
      simp [Base58.decodeCore]
  | c :: cs, M, cap, hval, hfit => by
      simp only [List.foldl_cons] at hfit
      have hv := hval c (by simp)
      have hmono := base58_foldl58_mono cs
        (M * 58 + Base58.Base58ReverseTable c)
      have hfit1 : (Nat.digits 256
          (58 * M + Base58.Base58ReverseTable c)).length ≤ cap := by
        have h1 : 58 * M + Base58.Base58ReverseTable c ≤
            cs.foldl (fun x d => x * 58 + Base58.Base58ReverseTable d)
              (M * 58 + Base58.Base58ReverseTable c) := by omega
        exact le_trans (Nat.le_digits_len_le 256 _ _ h1) hfit
      have hd := base58_decLoop_digits M (Base58.Base58ReverseTable c) cap
        [] hfit1
      rw [List.append_nil, List.append_nil] at hd
      simp only [Base58.decodeCore, hv.1, Bool.false_eq_true, if_false]
      rw [if_neg (show ¬ Base58.Base58ReverseTable c =
        Base58.InvalidBase58Character from hv.2)]
      simp only [hd]
      have hc : 58 * M + Base58.Base58ReverseTable c =
          M * 58 + Base58.Base58ReverseTable c := by ring
      rw [hc]
      simp only [Nat.lt_irrefl, if_false]
      have := base58_decodeCore_spec cs
        (M * 58 + Base58.Base58ReverseTable c) cap
        (fun d hd0 => hval d (by simp [hd0])) hfit
      simp only [List.foldl_cons]
      exact this

theorem base58_foldl_ofDigits (b : Nat) : ∀ (L : List Nat) (a : Nat),
    (L.reverse).foldl (fun x d => x * b + d) a =
      a * b ^ L.length + Nat.ofDigits b L
  | [], a => by simp
  | d :: L, a => by
      simp only [List.reverse_cons, List.foldl_append,
        base58_foldl_ofDigits b L a, List.foldl_cons, List.foldl_nil,
        Nat.ofDigits_cons, List.length_cons]
      rw [pow_succ]
      ring

set_option maxRecDepth 20000 in
theorem base58_tableRT : ∀ v, v < 58 →
    Base58.Base58ReverseTable (Base58.Base58Table.getD v 0) = v := by
  decide

set_option maxRecDepth 20000 in
theorem base58_tableChar : ∀ v, v < 58 →
    Base58.IsSpace (Base58.Base58Table.getD v 0) = false ∧
      Base58.Base58ReverseTable (Base58.Base58Table.getD v 0) ≠ 255 ∧
      (v ≠ 0 → Base58.Base58Table.getD v 0 ≠ 49) := by
  decide

theorem base58_foldl_table : ∀ (L : List Nat), (∀ d ∈ L, d < 58) →
    ∀ (a : Nat),
    L.foldl (fun x d =>
      x * 58 + Base58.Base58ReverseTable (Base58.Base58Table.getD d 0)) a =
      L.foldl (fun x d => x * 58 + d) a
  | [], _, _ => rfl
  | d :: L, h, a => by
      simp only [List.foldl_cons]
      rw [base58_tableRT d (h d (by simp))]
      exact base58_foldl_table L (fun e he => h e (by simp [he])) (a * 58 + d)

theorem base58_beVal_digits (bs : List Nat) (hb : ∀ b ∈ bs, b < 256)
    (hne : bs ≠ []) (hh : bs.head hne ≠ 0) :
    Nat.digits 256 (beVal bs) = bs.reverse := by
  have hval : beVal bs = Nat.ofDigits 256 bs.reverse := by
    have := base58_foldl_ofDigits 256 bs.reverse 0
    rw [List.reverse_reverse] at this
    simpa [beVal] using this
  rw [hval]
  apply Nat.digits_ofDigits 256 (by omega)
  · intro e he
    exact hb e (List.mem_reverse.mp he)
  · intro h
    rw [List.getLast_reverse]
    exact hh

theorem base58_scanZeros_spec : ∀ (k : Nat) (R : List Nat) (z d : Nat),
    (∀ c, R.head? = some c → c ≠ 49 ∧ Base58.IsSpace c = false) →
    Base58.scanZeros (List.replicate k 49 ++ R) z d = (z + k, d + k)
  | 0, R, z, d, h => by
      cases R with
      | nil => simp [Base58.scanZeros]
      | cons c R' =>
          have hc := h c (by simp)
          simp only [List.replicate, List.nil_append, Base58.scanZeros]
          rw [if_neg (by simpa using hc.1), if_neg (by simp [hc.2])]
          simp
  | k + 1, R, z, d, h => by
      have hsplit : List.replicate (k + 1) 49 ++ R =
          49 :: (List.replicate k 49 ++ R) := by simp [List.replicate]
      rw [hsplit]
      simp only [Base58.scanZeros]
      rw [if_pos (by decide : (49 : Nat) = '1'.toNat)]
      rw [base58_scanZeros_spec k R (z + 1) (d + 1) h]
      simp only [Prod.mk.injEq]
      omega

theorem base58_drop_eq_dropWhile : ∀ (x : List Nat),
    x.drop (x.takeWhile (fun b => b == 0)).length =
      x.dropWhile (fun b => b == 0)
  | [] => rfl
  | b :: x => by
      cases hb : (b == 0) with
      | true =>
          simp [List.takeWhile_cons, List.dropWhile_cons, hb,
            base58_drop_eq_dropWhile x]
      | false => simp [List.takeWhile_cons, List.dropWhile_cons, hb]

theorem base58_split_zeros (x : List Nat) :
    x = List.replicate (x.takeWhile (fun b => b == 0)).length 0 ++
      x.drop (x.takeWhile (fun b => b == 0)).length := by
  have h1 : x.takeWhile (fun b => b == 0) =
      List.replicate (x.takeWhile (fun b => b == 0)).length 0 :=
    List.eq_replicate.mpr ⟨rfl, fun b hb => by
      simpa using List.mem_takeWhile_imp hb⟩
  rw [base58_drop_eq_dropWhile, ← h1]
  exact (List.takeWhile_append_dropWhile _ _).symm

theorem base58_roundtrip (x : List Nat) (hx : ∀ b ∈ x, b < 256) :
    Base58.Decode (Base58.Encode x) = x := by
  rcases List.eq_nil_or_concat x with rfl | hcx
  · simp [Base58.Encode, Base58.Decode]
  have hxne : x ≠ [] := by rcases hcx with ⟨l, a, rfl⟩; simp
  rw [base58_encode_eq x hx]
  have hsplit := base58_split_zeros x
  have hdw := base58_drop_eq_dropWhile x
  obtain ⟨zeros, hz⟩ : ∃ z, (x.takeWhile (fun b => b == 0)).length = z :=
    ⟨_, rfl⟩
  rw [hz] at hsplit hdw ⊢
  obtain ⟨bs, hbs⟩ : ∃ l, x.drop zeros = l := ⟨_, rfl⟩
  rw [hbs] at hsplit hdw ⊢
  have hbsb : ∀ b ∈ bs, b < 256 := fun b hb =>
    hx b (by rw [hsplit]; exact List.mem_append_right _ hb)
  cases bs with
  | nil =>
      simp only [beVal, List.foldl_nil, Nat.digits_zero, List.map_nil,
        List.reverse_nil, List.append_nil]
      have hxz : x = List.replicate zeros 0 := by simpa using hsplit
      have hzpos : zeros ≠ 0 := by
        intro h0
        rw [h0] at hxz
        simp only [List.replicate] at hxz
        exact hxne hxz
      simp only [Base58.Decode]
      rw [if_neg (by simp [hzpos])]
      have hscan := base58_scanZeros_spec zeros [] 0 0
        (by intro c hc; simp at hc)
      rw [List.append_nil] at hscan
      simp only [Nat.zero_add] at hscan
      have hscan1 : (Base58.scanZeros (List.replicate zeros 49) 0 0).1 =
          zeros := by rw [hscan]
      have hscan2 : (Base58.scanZeros (List.replicate zeros 49) 0 0).2 =
          zeros := by rw [hscan]
      rw [hscan1, hscan2, List.drop_replicate, Nat.sub_self]
      simp [Base58.decodeCore, hxz]
  | cons b0 bs' =>
      have hdwne : x.dropWhile (fun b => b == 0) ≠ [] := by
        rw [← hdw]; simp
      have h9 : (x.dropWhile (fun b => b == 0)).head? = some b0 := by
        rw [← hdw]; rfl
      have h10 := List.head?_dropWhile_not (fun b => b == 0) x
      rw [h9] at h10
      simp only [] at h10
      have hb0 : b0 ≠ 0 := by simpa using h10
      obtain ⟨N, hN⟩ : ∃ n, beVal (b0 :: bs') = n := ⟨_, rfl⟩
      rw [hN]
      have hdig : Nat.digits 256 N = (b0 :: bs').reverse := by
        rw [← hN]
        exact base58_beVal_digits _ hbsb (by simp) (by simpa using hb0)
      have hN0 : N ≠ 0 := by
        intro h0
        rw [h0, Nat.digits_zero] at hdig
        exact List.cons_ne_nil b0 bs'
          (List.reverse_eq_nil_iff.mp hdig.symm)
      obtain ⟨ds, hds⟩ : ∃ l, Nat.digits 58 N = l := ⟨_, rfl⟩
      rw [hds]
      have hds_ne : ds ≠ [] := by
        rw [← hds]; exact Nat.digits_ne_nil_iff_ne_zero.mpr hN0
      have hds_lt : ∀ d ∈ ds, d < 58 := by
        rw [← hds]
        intro d hd
        exact Nat.digits_lt_base (by omega) hd
      have h58 : ds.getLast? ≠ some 0 := by
        rw [← hds]; exact base58_digits_last_ne 58 N
      obtain ⟨R, hR⟩ : ∃ r,
          (ds.map (fun d => Base58.Base58Table.getD d 0)).reverse = r :=
        ⟨_, rfl⟩
      rw [hR]
      have hRlen : R.length = ds.length := by rw [← hR]; simp
      have hRne : R ≠ [] := by rw [← hR]; simp [hds_ne]
      have hlast_ne0 : ds.getLast hds_ne ≠ 0 := by
        intro h0
        exact h58 (by rw [List.getLast?_eq_getLast_of_ne_nil hds_ne, h0])
      have hlast_lt : ds.getLast hds_ne < 58 :=
        hds_lt _ (List.getLast_mem _)
      have hRhead : ∀ c, R.head? = some c →
          c ≠ 49 ∧ Base58.IsSpace c = false := by
        intro c hc
        rw [← hR] at hc
        rw [List.head?_eq_head (by simp [hds_ne])] at hc
        rw [List.head_reverse] at hc
        rw [List.getLast_map] at hc
        have hc' : c = Base58.Base58Table.getD (ds.getLast hds_ne) 0 := by
          have := Option.some.inj hc
          rw [← this]
        have hfacts := base58_tableChar (ds.getLast hds_ne) hlast_lt
        exact ⟨by rw [hc']; exact hfacts.2.2 hlast_ne0,
          by rw [hc']; exact hfacts.1⟩
      have hscan := base58_scanZeros_spec zeros R 0 0 hRhead
      simp only [Nat.zero_add] at hscan
      have hlen_s : (List.replicate zeros 49 ++ R).length =
          zeros + ds.length := by simp [hRlen]
      have hdspos : 0 < ds.length := List.length_pos.mpr hds_ne
      simp only [Base58.Decode]
      rw [if_neg (by rw [hlen_s]; omega)]
      have hscan1 :
          (Base58.scanZeros (List.replicate zeros 49 ++ R) 0 0).1 =
          zeros := by rw [hscan]
      have hscan2 :
          (Base58.scanZeros (List.replicate zeros 49 ++ R) 0 0).2 =
          zeros := by rw [hscan]
      rw [hscan1, hscan2]
      have hdrop : (List.replicate zeros 49 ++ R).drop zeros = R := by
        have h := List.drop_left (List.replicate zeros 49) R
        rw [List.length_replicate] at h
        exact h
      rw [hdrop, hlen_s]
      have hval : ∀ c ∈ R, Base58.IsSpace c = false ∧
          Base58.Base58ReverseTable c ≠ 255 := by
        intro c hc
        rw [← hR, List.mem_reverse] at hc
        obtain ⟨d, hd, rfl⟩ := List.mem_map.mp hc
        have hlt := hds_lt d hd
        have hfacts := base58_tableChar d hlt
        refine ⟨hfacts.1, ?_⟩
        rw [base58_tableRT d hlt]
        omega
      have hMf : R.foldl
          (fun a c => a * 58 + Base58.Base58ReverseTable c) 0 = N := by
        rw [← hR, ← List.map_reverse, List.foldl_map]
        rw [base58_foldl_table ds.reverse
          (fun d hd => hds_lt d (List.mem_reverse.mp hd)) 0]
        rw [base58_foldl_ofDigits 58 ds 0]
        rw [← hds]
        simp [Nat.ofDigits_digits]
      have hlen256 : (Nat.digits 256 N).length = bs'.length + 1 := by
        rw [hdig]; simp
      have hfit : (Nat.digits 256 N).length ≤ zeros + ds.length := by
        have h1 : (256:Nat) ^ (Nat.digits 256 N).length ≤ 256 * N :=
          Nat.base_pow_length_digits_le 256 N (by omega) hN0
        have h2 : N < 58 ^ ds.length := by
          rw [← hds]
          exact Nat.lt_base_pow_length_digits (by omega)
        have h3 : (58:Nat) ^ ds.length ≤ 256 ^ ds.length :=
          Nat.pow_le_pow_left (by omega) _
        have h4 : (256:Nat) ^ (Nat.digits 256 N).length <
            256 ^ (ds.length + 1) := by
          calc (256:Nat) ^ (Nat.digits 256 N).length ≤ 256 * N := h1
            _ < 256 * 58 ^ ds.length := by omega
            _ ≤ 256 * 256 ^ ds.length := by omega
            _ = 256 ^ (ds.length + 1) := by rw [pow_succ]; ring
        have h5 : (Nat.digits 256 N).length < ds.length + 1 :=
          (Nat.pow_lt_pow_iff_right (by omega)).mp h4
        omega
      have hcore := base58_decodeCore_spec R 0 (zeros + ds.length) hval
        (by rw [hMf]; exact hfit)
      simp only [Nat.digits_zero, List.nil_append, List.length_nil,
        Nat.sub_zero] at hcore
      rw [hMf] at hcore
      rw [hcore]
      simp only []
      rw [hdig]
      rw [List.take_left]
      rw [List.reverse_append, List.reverse_replicate,
        List.reverse_reverse]
      exact hsplit.symm

theorem base58_encodeCore_run (x : List Nat) (hx : ∀ b ∈ x, b < 256) :
    Base58.encodeCore (x.drop (x.takeWhile (fun b => b == 0)).length)
        (List.replicate (x.length * 137 / 100 + 1) 0)
        (x.takeWhile (fun b => b == 0)).length
        (x.takeWhile (fun b => b == 0)).length
        (x.length * 137 / 100 + 1) =
      some (Nat.digits 58
          (beVal (x.drop (x.takeWhile (fun b => b == 0)).length)) ++
        List.replicate (x.length * 137 / 100 + 1 -
          (x.takeWhile (fun b => b == 0)).length -
          (Nat.digits 58 (beVal
            (x.drop (x.takeWhile (fun b => b == 0)).length))).length) 0 ++
        List.replicate (x.takeWhile (fun b => b == 0)).length 0,
        (x.takeWhile (fun b => b == 0)).length +
          (Nat.digits 58 (beVal
            (x.drop (x.takeWhile (fun b => b == 0)).length))).length) := by
  have hzn : (x.takeWhile (fun b => b == 0)).length ≤ x.length :=
    (List.takeWhile_prefix _).length_le
  have hbslen : (x.drop (x.takeWhile (fun b => b == 0)).length).length =
      x.length - (x.takeWhile (fun b => b == 0)).length := by simp
  have hfit : (Nat.digits 58
      ((x.drop (x.takeWhile (fun b => b == 0)).length).foldl
        (fun a b => a * 256 + b) 0)).length ≤
      x.length * 137 / 100 + 1 - (x.takeWhile (fun b => b == 0)).length := by
    apply base58_digitsLen_le _ _ _ (by omega)
    have h1 := base58_foldl_lt (x.drop (x.takeWhile (fun b => b == 0)).length)
      0 (fun b hb => hx b (List.mem_of_mem_drop hb))
    have h2 : (256:Nat) ^
        (x.drop (x.takeWhile (fun b => b == 0)).length).length ≤
        58 ^ (x.length * 137 / 100 + 1 -
          (x.takeWhile (fun b => b == 0)).length) :=
      base58_pow_transfer _ _ (by rw [hbslen]; omega)
    calc (x.drop (x.takeWhile (fun b => b == 0)).length).foldl
          (fun a b => a * 256 + b) 0
        < 1 * 256 ^ (x.drop (x.takeWhile (fun b => b == 0)).length).length :=
          by simpa using h1
      _ ≤ 58 ^ (x.length * 137 / 100 + 1 -
          (x.takeWhile (fun b => b == 0)).length) := by simpa using h2
  have hcore := base58_encodeCore_spec
    (x.drop (x.takeWhile (fun b => b == 0)).length) 0
    (x.takeWhile (fun b => b == 0)).length
    (x.length * 137 / 100 + 1 - (x.takeWhile (fun b => b == 0)).length)
    (List.replicate (x.takeWhile (fun b => b == 0)).length 0)
    (by simpa using hfit)
  simp only [Nat.digits_zero, List.nil_append, List.length_nil,
    Nat.sub_zero, Nat.add_zero] at hcore
  rw [← List.replicate_add] at hcore
  have e1 : x.length * 137 / 100 + 1 -
      (x.takeWhile (fun b => b == 0)).length +
      (x.takeWhile (fun b => b == 0)).length =
      x.length * 137 / 100 + 1 := by omega
  have e2 : (x.takeWhile (fun b => b == 0)).length +
      (x.length * 137 / 100 + 1 -
        (x.takeWhile (fun b => b == 0)).length) =
      x.length * 137 / 100 + 1 := by omega
  rw [e1, e2] at hcore
  exact hcore

/-! ### Claim theorems -/

/-- C1: for every codec (radix-16, -32, -45, -58, -64) and every byte
sequence x, including the empty sequence and sequences with leading 0x00
octets, Decode (Encode x) = x. -/
theorem claim_c1 (x : List Nat) (hx : ∀ b ∈ x, b < 256) :
    Base16.Decode (Base16.Encode x) = x ∧
    Base32.Decode (Base32.Encode x) = x ∧
    Base45.Decode (Base45.Encode x) = x ∧
    Base58.Decode (Base58.Encode x) = x ∧
    Base64.Decode (Base64.Encode x) = x :=
  ⟨base16_roundtrip x hx, base32_roundtrip x hx, base45_roundtrip x hx,
    base58_roundtrip x hx, base64_roundtrip x hx⟩

/-- C1 witness: the round trip at the concrete byte sequence
[0, 0, 37, 255], which has two leading zero octets. -/
theorem claim_c1_witness :
    Base16.Decode (Base16.Encode [0, 0, 37, 255]) = [0, 0, 37, 255] ∧
    Base32.Decode (Base32.Encode [0, 0, 37, 255]) = [0, 0, 37, 255] ∧
    Base45.Decode (Base45.Encode [0, 0, 37, 255]) = [0, 0, 37, 255] ∧
    Base58.Decode (Base58.Encode [0, 0, 37, 255]) = [0, 0, 37, 255] ∧
    Base64.Decode (Base64.Encode [0, 0, 37, 255]) = [0, 0, 37, 255] :=
  claim_c1 [0, 0, 37, 255] (by decide)

/-- C2 counterexample: on input "QR" ([81, 82]) the decode loop stops with
12 accumulated bits whose 4 leftover bits are 1, not zero, yet Decode
returns [65] rather than failing with the empty sequence: radix-64 Decode
has no leftover-bits-must-be-zero check. -/
theorem claim_c2_counterexample :
    (Base64.decodeLoop [81, 82] 0 0 []).2.2 = 12 ∧
    (Base64.decodeLoop [81, 82] 0 0 []).2.1 % 2 ^ 4 = 1 ∧
    Base64.Decode [81, 82] = [65] := by decide

/-- C2 (amended): radix-64 Decode applies no leftover-bits check at all:
for every nonempty input its output length is a function of the count of
valid characters before the first padding character alone - three octets
per full group of four, plus one octet for a final partial group of one
or two characters and two octets for three - never the empty failure
result on account of nonzero leftover bits. -/
theorem claim_c2 (s : List Nat) (hs : s ≠ []) :
    (Base64.Decode s).length =
      3 * (Base64.validCount s / 4) +
        (if Base64.validCount s % 4 = 0 then 0
         else if Base64.validCount s % 4 = 3 then 2 else 1) := by
  rw [base64_decode_eq s hs]
  have hc := (base64_decodeLoop_count s 0 []).1
  have hgs := hc.1
  have hlen := hc.2
  simp only [List.length_nil, Nat.zero_add] at hlen
  have h4 : Base64.validCount s % 4 = 0 ∨ Base64.validCount s % 4 = 1 ∨
      Base64.validCount s % 4 = 2 ∨ Base64.validCount s % 4 = 3 := by omega
  rcases h4 with h | h | h | h <;> rw [h] at hgs <;> norm_num at hgs <;>
    simp [Base64.decodeFinish, hgs, hlen, h]

/-- C2 witness: the amended statement at the concrete input "QR"
([81, 82]), whose two valid characters yield one octet. -/
theorem claim_c2_witness :
    (Base64.Decode [81, 82]).length =
      3 * (Base64.validCount [81, 82] / 4) +
        (if Base64.validCount [81, 82] % 4 = 0 then 0
         else if Base64.validCount [81, 82] % 4 = 3 then 2 else 1) :=
  claim_c2 [81, 82] (by decide)

/-- C3 counterexample: on input "Q" ([81]) only 6 bits are accumulated,
fewer than the 8 the claim requires for a first trailing octet, yet
Decode emits the octet [64]. -/
theorem claim_c3_counterexample :
    (Base64.decodeLoop [81] 0 0 []).2.2 = 6 ∧
    Base64.Decode [81] = [64] := by decide

/-- C3 (amended): at end of input, radix-64 Decode flushes a partial
group by left-shifting it to 24 bits and emits a first trailing octet
whenever any bits were accumulated - already at 6 bits, not only from 8 -
a second octet only from at least 16 bits, and never a third (a full 24
is flushed inside the loop); absence of trailing '=' is not an error. -/
theorem claim_c3 (s : List Nat) (hs : s ≠ []) :
    ((Base64.decodeLoop s 0 0 []).2.2 = 0 →
      Base64.Decode s = (Base64.decodeLoop s 0 0 []).1) ∧
    ((Base64.decodeLoop s 0 0 []).2.2 = 6 ∨
        (Base64.decodeLoop s 0 0 []).2.2 = 12 →
      Base64.Decode s = (Base64.decodeLoop s 0 0 []).1 ++
        [(Base64.decodeLoop s 0 0 []).2.1 *
          2 ^ (24 - (Base64.decodeLoop s 0 0 []).2.2) / 65536 % 256]) ∧
    ((Base64.decodeLoop s 0 0 []).2.2 = 18 →
      Base64.Decode s = (Base64.decodeLoop s 0 0 []).1 ++
        [(Base64.decodeLoop s 0 0 []).2.1 * 64 / 65536 % 256,
         (Base64.decodeLoop s 0 0 []).2.1 * 64 / 256 % 256]) := by
  refine ⟨fun h => ?_, fun h => ?_, fun h => ?_⟩
  · rw [base64_decode_eq s hs]
    simp [Base64.decodeFinish, h]
  · rcases h with h | h <;> rw [base64_decode_eq s hs] <;>
      simp [Base64.decodeFinish, h]
  · rw [base64_decode_eq s hs]
    simp [Base64.decodeFinish, h]

/-- C3 witness: the amended flush behaviour at the concrete input "Q"
([81]): 6 accumulated bits emit one octet. -/
theorem claim_c3_witness :
    Base64.Decode [81] = (Base64.decodeLoop [81] 0 0 []).1 ++
      [(Base64.decodeLoop [81] 0 0 []).2.1 *
        2 ^ (24 - (Base64.decodeLoop [81] 0 0 []).2.2) / 65536 % 256] :=
  (claim_c3 [81] (by decide)).2.1 (by decide)

/-- C4: every codec's Encode is total and returns the empty string exactly
on empty input; in particular radix-58's residual-carry failure branch is
never taken: the conversion core always returns a result (never none) for
byte inputs. -/
theorem claim_c4 (x : List Nat) (hx : ∀ b ∈ x, b < 256) :
    (Base16.Encode x = [] ↔ x = []) ∧
    (Base32.Encode x = [] ↔ x = []) ∧
    (Base45.Encode x = [] ↔ x = []) ∧
    (Base58.Encode x = [] ↔ x = []) ∧
    (Base64.Encode x = [] ↔ x = []) ∧
    Base58.encodeCore (x.drop (x.takeWhile (fun b => b == 0)).length)
        (List.replicate (x.length * 137 / 100 + 1) 0)
        (x.takeWhile (fun b => b == 0)).length
        (x.takeWhile (fun b => b == 0)).length
        (x.length * 137 / 100 + 1) ≠ none := by
  refine ⟨?_, ?_, ?_, ?_, ?_, ?_⟩
  · constructor
    · intro h
      have hr := base16_roundtrip x hx
      rw [h] at hr
      simp only [Base16.Decode] at hr
      simpa using hr.symm
    · intro h
      subst h
      simp [Base16.Encode]
  · constructor
    · intro h
      have hr := base32_roundtrip x hx
      rw [h] at hr
      simp only [Base32.Decode] at hr
      simpa using hr.symm
    · intro h
      subst h
      simp [Base32.Encode]
  · constructor
    · intro h
      have hr := base45_roundtrip x hx
      rw [h] at hr
      simp only [Base45.Decode] at hr
      simpa using hr.symm
    · intro h
      subst h
      simp [Base45.Encode]
  · constructor
    · intro h
      have hr := base58_roundtrip x hx
      rw [h] at hr
      simp only [Base58.Decode] at hr
      simpa using hr.symm
    · intro h
      subst h
      simp [Base58.Encode]
  · constructor
    · intro h
      have hr := base64_roundtrip x hx
      rw [h] at hr
      simp only [Base64.Decode] at hr
      simpa using hr.symm
    · intro h
      subst h
      simp [Base64.Encode]
  · rw [base58_encodeCore_run x hx]
    exact Option.some_ne_none _

/-- C4 witness: Encode-empty iff input-empty for radix-16 at the concrete
byte sequence [0, 7]. -/
theorem claim_c4_witness :
    Base16.Encode [0, 7] = [] ↔ ([0, 7] : List Nat) = [] :=
  (claim_c4 [0, 7] (by decide)).1

/-- C5: radix-16 Decode yields the empty failure result whenever the
count of valid hex nibbles after skipping non-alphabet characters is odd
(in particular for "FF80F", [70, 70, 56, 48, 70]); when the count is
even, every two valid nibbles yield one octet, high nibble first. -/
theorem claim_c5 (s : List Nat) :
    ((Base16.validNibbles s).length % 2 = 1 → Base16.Decode s = []) ∧
    ((Base16.validNibbles s).length % 2 = 0 →
      Base16.Decode s = Base16.pairNibbles (Base16.validNibbles s)) ∧
    Base16.Decode [70, 70, 56, 48, 70] = [] :=
  ⟨(base16_decode_characterization s).1,
    (base16_decode_characterization s).2, by decide⟩

/-- C6: after radix-45 Decode consumes all full groups of three valid
characters, a trailing group of exactly two with values c0, c1 appends
the single octet (c0 + c1 * 45) mod 256; a trailing group of one makes
Decode fail with the empty result; an empty trailing group is fine. -/
theorem claim_c6 (s : List Nat) :
    ((Base45.vals s).length % 3 = 2 →
      Base45.Decode s =
        Base45.decodeFull
            ((Base45.vals s).take ((Base45.vals s).length - 2)) ++
          [((Base45.vals s).getD ((Base45.vals s).length - 2) 0 +
            (Base45.vals s).getD ((Base45.vals s).length - 1) 0 * 45) %
            256]) ∧
    ((Base45.vals s).length % 3 = 1 → Base45.Decode s = []) ∧
    ((Base45.vals s).length % 3 = 0 →
      Base45.Decode s = Base45.decodeFull (Base45.vals s)) := by
  have hd := base45_decode_eq s
  have hg := base45_decodeGroups_split (Base45.vals s)
  refine ⟨fun h => ?_, fun h => ?_, fun h => ?_⟩
  · rw [hd, hg.2.2 h]
    rfl
  · rw [hd, hg.2.1 h]
    rfl
  · rw [hd, hg.1 h]
    rfl

/-- C7: radix-45 Encode works on pairs of octets: each full pair with
16-bit big-endian value v appends table[v mod 45],
table[(v / 45) mod 45], table[(v / 2025) mod 45] in that order, and a
trailing single octet v appends table[v mod 45], table[(v / 45) mod 45];
in particular Encode "AB" = "BB8". -/
theorem claim_c7 (x : List Nat) :
    Base45.Encode x = Base45.encodePairs x ∧
    Base45.Encode [65, 66] = [66, 66, 56] :=
  ⟨base45_encode_eq x, by decide⟩

/-- C8: for nonempty input of n octets, radix-32 Encode yields exactly
ceil(n / 5) * 8 characters, a body extended with '=' (61) padding
characters determined by n mod 5; empty input yields the empty string. -/
theorem claim_c8 (x : List Nat) (hx : x ≠ []) :
    (Base32.Encode x).length = (x.length + 4) / 5 * 8 ∧
    (∃ body, Base32.Encode x =
      body ++ List.replicate (Base32.padOf (x.length % 5)) 61) ∧
    Base32.Encode [] = [] := by
  have h := base32_enc_shape x 0 hx
  have he : Base32.Encode x = Base32.encodeLoop x 0 0 0 [] := by
    simp only [Base32.Encode]
    rw [if_neg (fun hc => hx (List.length_eq_zero.mp hc))]
  rw [he]
  exact ⟨h.1, h.2, rfl⟩

/-- C8 witness: the length and padding shape at the concrete one-octet
input [102], which encodes to eight characters with six '=' signs. -/
theorem claim_c8_witness :
    (Base32.Encode [102]).length = (([102] : List Nat).length + 4) / 5 * 8 ∧
    (∃ body, Base32.Encode [102] =
      body ++ List.replicate (Base32.padOf (([102] : List Nat).length % 5)) 61) ∧
    Base32.Encode [] = [] :=
  claim_c8 [102] (by decide)

/-- C9: the out-of-bounds access of the character-substitution loop of
radix-58 Encode, at the concrete input [1].  The loop header
for (i = 0; i <= output_length; i++) touches index output_length, but
after output.resize(output_length) the string holds exactly
output_length characters - Encode [1] has length 1 = output_length - so
the touched index set contains an index that is not in bounds. -/
theorem claim_c9 :
    Base58.encodeOutputLength [1] ∈
      Base58.substIndices (Base58.encodeOutputLength [1]) ∧
    (Base58.Encode [1]).length = Base58.encodeOutputLength [1] ∧
    ¬ Base58.encodeOutputLength [1] < (Base58.Encode [1]).length := by
  have hb : beVal (List.drop
      (List.takeWhile (fun b => b == 0) [1]).length [1]) = 1 := by decide
  have hd : Nat.digits 58 1 = [1] := by
    rw [Nat.digits_def' (by norm_num : (1:Nat) < 58) (by norm_num : 0 < 1)]
    norm_num
  have h1 : Base58.encodeOutputLength [1] = 1 := by
    simp only [Base58.encodeOutputLength]
    rw [base58_encodeCore_run [1] (by decide)]
    rw [hb, hd]
    decide
  have h2 : Base58.Encode [1] = [50] := by
    rw [base58_encode_eq [1] (by decide)]
    rw [hb, hd]
    decide
  rw [h1, h2]
  decide

/-- C10: radix-45 Decode never rejects a full group of three valid
characters for magnitude: whatever the symbol values a, b, c, it appends
the octets ((v mod 65536) / 256) and (v mod 256) for v = a + b*45 +
c*2025, even when v exceeds 65535, so the distinct valid inputs "GGW"
([71, 71, 87], v = 65536) and "000" ([48, 48, 48], v = 0) both decode to
[0, 0]. -/
theorem claim_c10 :
    (∀ (s : List Nat) (a b c : Nat), Base45.vals s = [a, b, c] →
      Base45.Decode s =
        [(a + b * 45 + c * 2025) % 65536 / 256,
         (a + b * 45 + c * 2025) % 256]) ∧
    65535 < 16 + 16 * 45 + 32 * 2025 ∧
    Base45.vals [71, 71, 87] = [16, 16, 32] ∧
    Base45.Decode [71, 71, 87] = [0, 0] ∧
    Base45.Decode [48, 48, 48] = [0, 0] := by
  refine ⟨?_, by norm_num, by decide, by decide, by decide⟩
  intro s a b c h
  have hd := base45_decode_eq s
  have hg := (base45_decodeGroups_split (Base45.vals s)).1
    (by rw [h]; simp)
  rw [hd, hg, h]
  simp [Base45.decodeFull]
